import Mathlib

/-!
Verification development for pkg/cache/cache.go: a concurrent,
duplicate-suppressing memoizing cache implemented twice, once with a
single-owner request-handling worker (the confinement strategy, type
cache with handleRequests) and once with a mutual-exclusion lock (the
type mutexCache).

Both strategies are embedded as small-step interleaving transition
systems over explicit states.  Go channels are modelled as follows: an
unbuffered channel send/receive pair is one rendezvous transition; a
channel used only for close/receive (entry.ready, the stop channel) is
a Bool flag, where close sets the flag, a receive is guarded on the
flag, and close of an already-closed channel sets a global panicked
flag, as in Go.  The Go map store is an association list keyed by url.
Goroutines become explicit task records with program counters whose
values name the source line they stand before.  The fetchLog field is
ghost instrumentation recording every invocation of the fetch function
fn (one list entry per call, newest first); the written field of an
entry is ghost instrumentation recording that e.res.value / e.res.err
have been assigned by the fetch.
-/

/-- The fetch function type Func of cache.go: the interface value and
the error are each modelled as Option String (none stands for nil). -/
abbrev Func := String → Option String × Option String

/-- The response struct of cache.go.  The start field (a time.Time set
only by handleUrl, outside the cache core) is modelled as a Nat and is
never written by any cache transition. -/
structure response where
  start : Nat
  url : String
  value : Option String
  err : Option String
deriving DecidableEq, Repr

/-- The entry struct of cache.go: a response plus the ready channel,
modelled as a Bool that is false while the channel is open and true
once closed.  written is ghost state marking that res.value and
res.err have been assigned. -/
structure entry where
  res : response
  ready : Bool
  written : Bool
deriving DecidableEq, Repr

/-- newEntry of cache.go: a fresh entry whose response carries the key
as url, with nil value and error and an open ready channel. -/
def newEntry (key : String) : entry :=
  { res := { start := 0, url := key, value := none, err := none }
    ready := false
    written := false }

/-- Lookup in the store association list, modelling the Go map read
c.store[key] (some eid is a hit, none is the nil-pointer miss). -/
def lookupStore : List (String × Nat) → String → Option Nat
  | [], _ => none
  | (k, eid) :: rest, key => if key = k then some eid else lookupStore rest key

/-- Number of occurrences of key k in the ghost fetch log: how many
times the fetch function has been invoked with argument k. -/
def countKey (l : List String) (k : String) : Nat :=
  (l.filter fun x => x = k).length

/-! ## The mutex strategy: mutexCache.Get (cache.go lines 147-168)

One task per Get call.  The program counter records the position
inside mutexCache.Get. -/

/-- Program counter of a task executing mutexCache.Get.  atLock is
before c.mu.Lock(); locked is before the store lookup; missUnlock /
hitUnlock are before c.mu.Unlock() on the corresponding branch;
fetching is before c.fn(key); closing is before close(e.ready);
waiting is before the receive on e.ready; done r has returned r. -/
inductive MutexPc where
  | atLock
  | locked
  | missUnlock (eid : Nat)
  | hitUnlock (eid : Nat)
  | fetching (eid : Nat)
  | closing (eid : Nat)
  | waiting (eid : Nat)
  | done (r : response)
deriving DecidableEq, Repr

/-- A task running mutexCache.Get key. -/
structure MTask where
  key : String
  pc : MutexPc
deriving DecidableEq, Repr

/-- State of the mutex strategy: the mutexCache struct (fn, store with
entries stored by index, mu as the Option of the holding task) plus
the pool of Get tasks, the ghost fetch log and the Go panic flag. -/
structure MState where
  fn : Func
  store : List (String × Nat)
  entries : List entry
  lock : Option Nat
  tasks : List MTask
  fetchLog : List String
  panicked : Bool

/-- NewMutexCache of cache.go, with one Get task spawned per requested
key: empty store, free lock. -/
def NewMutexCache (f : Func) (keys : List String) : MState :=
  { fn := f
    store := []
    entries := []
    lock := none
    tasks := keys.map fun k => { key := k, pc := .atLock }
    fetchLog := []
    panicked := false }

/-- Small-step interleaving semantics of mutexCache.Get: each
constructor is one atomic action of one task.  The store lookup, the
nil test and the create-and-insert of the miss branch are a single
step because every one of those source lines runs between Lock and
Unlock, so no other task can interleave store access with them. -/
inductive MStep : MState → MState → Prop where
  | lockAcq (s : MState) (t : Nat) (τ : MTask)
      (hp : s.panicked = false)
      (ht : s.tasks[t]? = some τ) (hpc : τ.pc = .atLock)
      (hl : s.lock = none) :
      MStep s { s with lock := some t
                       tasks := s.tasks.set t { τ with pc := .locked } }
  | lookupMiss (s : MState) (t : Nat) (τ : MTask)
      (hp : s.panicked = false)
      (ht : s.tasks[t]? = some τ) (hpc : τ.pc = .locked)
      (hl : s.lock = some t)
      (hm : lookupStore s.store τ.key = none) :
      MStep s { s with entries := s.entries ++ [newEntry τ.key]
                       store := (τ.key, s.entries.length) :: s.store
                       tasks := s.tasks.set t { τ with pc := .missUnlock s.entries.length } }
  | lookupHit (s : MState) (t : Nat) (τ : MTask) (eid : Nat)
      (hp : s.panicked = false)
      (ht : s.tasks[t]? = some τ) (hpc : τ.pc = .locked)
      (hl : s.lock = some t)
      (hh : lookupStore s.store τ.key = some eid) :
      MStep s { s with tasks := s.tasks.set t { τ with pc := .hitUnlock eid } }
  | unlockMiss (s : MState) (t : Nat) (τ : MTask) (eid : Nat)
      (hp : s.panicked = false)
      (ht : s.tasks[t]? = some τ) (hpc : τ.pc = .missUnlock eid)
      (hl : s.lock = some t) :
      MStep s { s with lock := none
                       tasks := s.tasks.set t { τ with pc := .fetching eid } }
  | unlockHit (s : MState) (t : Nat) (τ : MTask) (eid : Nat)
      (hp : s.panicked = false)
      (ht : s.tasks[t]? = some τ) (hpc : τ.pc = .hitUnlock eid)
      (hl : s.lock = some t) :
      MStep s { s with lock := none
                       tasks := s.tasks.set t { τ with pc := .waiting eid } }
  | fetch (s : MState) (t : Nat) (τ : MTask) (eid : Nat) (e : entry)
      (hp : s.panicked = false)
      (ht : s.tasks[t]? = some τ) (hpc : τ.pc = .fetching eid)
      (he : s.entries[eid]? = some e) :
      MStep s { s with entries := s.entries.set eid
                         { e with res := { e.res with value := (s.fn τ.key).1,
                                                      err := (s.fn τ.key).2 },
                                  written := true },
                       fetchLog := τ.key :: s.fetchLog,
                       tasks := s.tasks.set t { τ with pc := .closing eid } }
  | closeRet (s : MState) (t : Nat) (τ : MTask) (eid : Nat) (e : entry)
      (hp : s.panicked = false)
      (ht : s.tasks[t]? = some τ) (hpc : τ.pc = .closing eid)
      (he : s.entries[eid]? = some e) (hr : e.ready = false) :
      MStep s { s with entries := s.entries.set eid { e with ready := true }
                       tasks := s.tasks.set t { τ with pc := .done e.res } }
  | closeAgain (s : MState) (t : Nat) (τ : MTask) (eid : Nat) (e : entry)
      (hp : s.panicked = false)
      (ht : s.tasks[t]? = some τ) (hpc : τ.pc = .closing eid)
      (he : s.entries[eid]? = some e) (hr : e.ready = true) :
      MStep s { s with panicked := true }
  | waitRet (s : MState) (t : Nat) (τ : MTask) (eid : Nat) (e : entry)
      (hp : s.panicked = false)
      (ht : s.tasks[t]? = some τ) (hpc : τ.pc = .waiting eid)
      (he : s.entries[eid]? = some e) (hr : e.ready = true) :
      MStep s { s with tasks := s.tasks.set t { τ with pc := .done e.res } }

/-- Reachability for the mutex strategy. -/
def MReach : MState → MState → Prop := Relation.ReflTransGen MStep

theorem MReach_head {s t u : MState} (h1 : MStep s t) (h2 : MReach t u) : MReach s u :=
  Relation.ReflTransGen.head h1 h2

theorem MReach_refl (s : MState) : MReach s s :=
  Relation.ReflTransGen.refl

/-! ## List and lookup infrastructure -/

theorem getElem?_lt {α : Type} {l : List α} {i : Nat} {a : α}
    (h : l[i]? = some a) : i < l.length :=
  (List.getElem?_eq_some.mp h).1

theorem getElem?_set_self {α : Type} {l : List α} {i : Nat} {a : α}
    (h : i < l.length) : (l.set i a)[i]? = some a := by
  simp [List.getElem?_set, h]

theorem getElem?_set_ne {α : Type} {l : List α} {i j : Nat} {a : α}
    (h : i ≠ j) : (l.set i a)[j]? = l[j]? := by
  simp [List.getElem?_set, h]

theorem getElem?_append_lt {α : Type} {l : List α} {x : α} {i : Nat}
    (h : i < l.length) : (l ++ [x])[i]? = l[i]? := by
  simp [List.getElem?_append, h]

theorem getElem?_append_len {α : Type} (l : List α) (x : α) :
    (l ++ [x])[l.length]? = some x := by
  simp

theorem set_cases {α : Type} {l : List α} {i j : Nat} {a b : α}
    (h : (l.set i a)[j]? = some b) :
    (j = i ∧ b = a ∧ i < l.length) ∨ (j ≠ i ∧ l[j]? = some b) := by
  by_cases hji : j = i
  · subst hji
    have hlt : j < l.length := by
      have := getElem?_lt h
      simpa using this
    rw [getElem?_set_self hlt] at h
    exact Or.inl ⟨rfl, (Option.some.inj h).symm, hlt⟩
  · exact Or.inr ⟨hji, by rwa [getElem?_set_ne fun hij => hji hij.symm] at h⟩

theorem append_cases {α : Type} {l : List α} {x : α} {i : Nat} {b : α}
    (h : (l ++ [x])[i]? = some b) :
    (i = l.length ∧ b = x) ∨ (i < l.length ∧ l[i]? = some b) := by
  by_cases hi : i < l.length
  · exact Or.inr ⟨hi, by rwa [getElem?_append_lt hi] at h⟩
  · left
    have hlen : i < l.length + 1 := by
      have := getElem?_lt h; simpa using this
    have hieq : i = l.length := Nat.le_antisymm (Nat.lt_succ_iff.mp hlen) (Nat.le_of_not_lt hi)
    subst hieq
    rw [getElem?_append_len] at h
    exact ⟨rfl, (Option.some.inj h).symm⟩

theorem lookupStore_not_mem {st : List (String × Nat)} {k : String}
    (h : lookupStore st k = none) : k ∉ st.map Prod.fst := by
  induction st with
  | nil => simp
  | cons p rest ih =>
    obtain ⟨a, b⟩ := p
    by_cases hk : k = a
    · subst hk
      simp [lookupStore] at h
    · simp only [lookupStore, if_neg hk] at h
      simp only [List.map_cons, List.mem_cons]
      rintro (h1 | h2)
      · exact hk h1
      · exact ih h h2

theorem countKey_cons (a k : String) (l : List String) :
    countKey (a :: l) k = (if a = k then 1 else 0) + countKey l k := by
  by_cases h : a = k <;> simp [countKey, List.filter_cons, h, Nat.add_comm]

theorem countKey_nil (k : String) : countKey [] k = 0 := rfl

/-! ## The mutex-strategy invariant -/

/-- Program counters at which a task holds the mutex: from the return
of Lock() to the call of Unlock() on either branch. -/
def holdsLockPc : MutexPc → Bool
  | .locked => true
  | .missUnlock _ => true
  | .hitUnlock _ => true
  | _ => false

/-- Program counters of the task that created entry eid and has not
yet returned: it is the one that will write res and close ready. -/
def mCreator (p : MutexPc) (eid : Nat) : Prop :=
  p = .missUnlock eid ∨ p = .fetching eid ∨ p = .closing eid

/-- Program counters holding a reference e to entry eid. -/
def refsEntry (p : MutexPc) (eid : Nat) : Prop :=
  p = .missUnlock eid ∨ p = .hitUnlock eid ∨ p = .fetching eid ∨
    p = .closing eid ∨ p = .waiting eid

/-- Expected number of fetch-function invocations for key k, read off
a store and entry list: 1 exactly when the key has an entry whose
result has been written, 0 otherwise. -/
def fetchWeight (st : List (String × Nat)) (es : List entry) (k : String) : Nat :=
  match lookupStore st k with
  | none => 0
  | some eid =>
    match es[eid]? with
    | none => 0
    | some e => if e.written then 1 else 0

theorem fetchWeight_none {st : List (String × Nat)} {es : List entry}
    {k : String} (h : lookupStore st k = none) : fetchWeight st es k = 0 := by
  simp [fetchWeight, h]

theorem fetchWeight_some {st : List (String × Nat)} {es : List entry}
    {k : String} {eid : Nat} {e : entry} (h : lookupStore st k = some eid)
    (he : es[eid]? = some e) :
    fetchWeight st es k = if e.written then 1 else 0 := by
  simp [fetchWeight, h, he]

/-- Inductive invariant of the mutex strategy. -/
structure MInv (s : MState) : Prop where
  noPanic : s.panicked = false
  storeKeys : (s.store.map Prod.fst).Nodup
  storeWF : ∀ (k : String) (eid : Nat), lookupStore s.store k = some eid →
    ∃ e, s.entries[eid]? = some e ∧ e.res.url = k
  lockHolder : ∀ (t : Nat), s.lock = some t →
    ∃ τ, s.tasks[t]? = some τ ∧ holdsLockPc τ.pc = true
  lockedImp : ∀ (t : Nat) (τ : MTask), s.tasks[t]? = some τ →
    holdsLockPc τ.pc = true → s.lock = some t
  taskRef : ∀ (t : Nat) (τ : MTask) (eid : Nat), s.tasks[t]? = some τ →
    refsEntry τ.pc eid → lookupStore s.store τ.key = some eid
  stageA : ∀ (t : Nat) (τ : MTask) (eid : Nat), s.tasks[t]? = some τ →
    (τ.pc = .missUnlock eid ∨ τ.pc = .fetching eid) →
    ∃ e, s.entries[eid]? = some e ∧ e.written = false ∧ e.ready = false
  stageB : ∀ (t : Nat) (τ : MTask) (eid : Nat), s.tasks[t]? = some τ →
    τ.pc = .closing eid →
    ∃ e, s.entries[eid]? = some e ∧ e.written = true ∧ e.ready = false
  creatorUnique : ∀ (t1 t2 : Nat) (τ1 τ2 : MTask) (eid : Nat),
    s.tasks[t1]? = some τ1 → s.tasks[t2]? = some τ2 →
    mCreator τ1.pc eid → mCreator τ2.pc eid → t1 = t2
  readyWritten : ∀ (eid : Nat) (e : entry), s.entries[eid]? = some e →
    e.ready = true → e.written = true
  writtenVal : ∀ (eid : Nat) (e : entry), s.entries[eid]? = some e →
    e.written = true →
    e.res.value = (s.fn e.res.url).1 ∧ e.res.err = (s.fn e.res.url).2
  logCount : ∀ (k : String), countKey s.fetchLog k = fetchWeight s.store s.entries k
  doneFact : ∀ (t : Nat) (τ : MTask) (r : response), s.tasks[t]? = some τ →
    τ.pc = .done r →
    ∃ eid e, lookupStore s.store τ.key = some eid ∧
      s.entries[eid]? = some e ∧ e.ready = true ∧ r = e.res

theorem MInv_init (f : Func) (keys : List String) :
    MInv (NewMutexCache f keys) := by
  have htask : ∀ (t : Nat) (τ : MTask), (NewMutexCache f keys).tasks[t]? = some τ →
      τ.pc = .atLock := by
    intro t τ ht
    simp only [NewMutexCache, List.getElem?_map] at ht
    rcases h : keys[t]? with _ | k
    · rw [h] at ht; simp at ht
    · rw [h] at ht
      injection ht with h2
      rw [← h2]
  constructor
  case noPanic => rfl
  case storeKeys => simp [NewMutexCache]
  case storeWF => intro k eid h; simp [NewMutexCache, lookupStore] at h
  case lockHolder => intro t h; simp [NewMutexCache] at h
  case lockedImp =>
    intro t τ ht hl
    rw [htask t τ ht] at hl
    simp [holdsLockPc] at hl
  case taskRef =>
    intro t τ eid ht hr
    rw [htask t τ ht] at hr
    simp [refsEntry] at hr
  case stageA =>
    intro t τ eid ht hr
    rw [htask t τ ht] at hr
    simp at hr
  case stageB =>
    intro t τ eid ht hr
    rw [htask t τ ht] at hr
    simp at hr
  case creatorUnique =>
    intro t1 t2 τ1 τ2 eid h1 h2 hc1 hc2
    rw [htask t1 τ1 h1] at hc1
    simp [mCreator] at hc1
  case readyWritten => intro eid e h; simp [NewMutexCache] at h
  case writtenVal => intro eid e h; simp [NewMutexCache] at h
  case logCount => intro k; simp [NewMutexCache, countKey, fetchWeight, lookupStore]
  case doneFact =>
    intro t τ r ht hd
    rw [htask t τ ht] at hd
    simp at hd

/-! ## Preservation of the mutex-strategy invariant, one step case each -/

theorem MInv_lockAcq {s : MState} {t : Nat} {τ : MTask}
    (hi : MInv s) (ht : s.tasks[t]? = some τ) (hpc : τ.pc = .atLock)
    (hl : s.lock = none) :
    MInv { s with lock := some t,
                  tasks := s.tasks.set t { τ with pc := .locked } } := by
  have tlen : t < s.tasks.length := getElem?_lt ht
  constructor
  case noPanic => exact hi.noPanic
  case storeKeys => exact hi.storeKeys
  case storeWF => exact hi.storeWF
  case lockHolder =>
    intro t' h'
    have htt : t = t' := Option.some.inj h'
    subst htt
    exact ⟨{ τ with pc := .locked }, getElem?_set_self tlen, rfl⟩
  case lockedImp =>
    intro t' τ' ht' hh'
    rcases set_cases ht' with ⟨hEq, hτ, _⟩ | ⟨hne, hold⟩
    · rw [hEq]
    · exact absurd hl (by rw [hi.lockedImp t' τ' hold hh']; simp)
  case taskRef =>
    intro t' τ' eid ht' hr
    rcases set_cases ht' with ⟨hEq, hτ, _⟩ | ⟨hne, hold⟩
    · subst hτ; simp [refsEntry] at hr
    · exact hi.taskRef t' τ' eid hold hr
  case stageA =>
    intro t' τ' eid ht' hr
    rcases set_cases ht' with ⟨hEq, hτ, _⟩ | ⟨hne, hold⟩
    · subst hτ; simp at hr
    · exact hi.stageA t' τ' eid hold hr
  case stageB =>
    intro t' τ' eid ht' hr
    rcases set_cases ht' with ⟨hEq, hτ, _⟩ | ⟨hne, hold⟩
    · subst hτ; simp at hr
    · exact hi.stageB t' τ' eid hold hr
  case creatorUnique =>
    intro t1 t2 τ1 τ2 eid h1 h2 hc1 hc2
    rcases set_cases h1 with ⟨hEq1, hτ1, _⟩ | ⟨hne1, hold1⟩ <;>
      rcases set_cases h2 with ⟨hEq2, hτ2, _⟩ | ⟨hne2, hold2⟩
    · rw [hEq1, hEq2]
    · subst hτ1; simp [mCreator] at hc1
    · subst hτ2; simp [mCreator] at hc2
    · exact hi.creatorUnique t1 t2 τ1 τ2 eid hold1 hold2 hc1 hc2
  case readyWritten => exact hi.readyWritten
  case writtenVal => exact hi.writtenVal
  case logCount => exact hi.logCount
  case doneFact =>
    intro t' τ' r ht' hd
    rcases set_cases ht' with ⟨hEq, hτ, _⟩ | ⟨hne, hold⟩
    · subst hτ; simp at hd
    · exact hi.doneFact t' τ' r hold hd

theorem mCreator_refs {p : MutexPc} {eid : Nat} (h : mCreator p eid) :
    refsEntry p eid := by
  rcases h with h | h | h <;> simp [refsEntry, h]

theorem MInv_lookupHit {s : MState} {t : Nat} {τ : MTask} {eid : Nat}
    (hi : MInv s) (ht : s.tasks[t]? = some τ) (hpc : τ.pc = .locked)
    (hl : s.lock = some t)
    (hh : lookupStore s.store τ.key = some eid) :
    MInv { s with tasks := s.tasks.set t { τ with pc := .hitUnlock eid } } := by
  have tlen : t < s.tasks.length := getElem?_lt ht
  constructor
  case noPanic => exact hi.noPanic
  case storeKeys => exact hi.storeKeys
  case storeWF => exact hi.storeWF
  case lockHolder =>
    intro t' h'
    have htt : t = t' := Option.some.inj (hl.symm.trans h')
    subst htt
    exact ⟨{ τ with pc := .hitUnlock eid }, getElem?_set_self tlen, rfl⟩
  case lockedImp =>
    intro t' τ' ht' hh'
    rcases set_cases ht' with ⟨hEq, hτ, _⟩ | ⟨hne, hold⟩
    · rw [hEq]; exact hl
    · exact hi.lockedImp t' τ' hold hh'
  case taskRef =>
    intro t' τ' eid' ht' hr
    rcases set_cases ht' with ⟨hEq, hτ, _⟩ | ⟨hne, hold⟩
    · subst hτ
      rcases hr with h | h | h | h | h <;> simp only [] at h <;>
        first
        | (injection h with h2; subst h2; exact hh)
        | cases h
    · exact hi.taskRef t' τ' eid' hold hr
  case stageA =>
    intro t' τ' eid' ht' hr
    rcases set_cases ht' with ⟨hEq, hτ, _⟩ | ⟨hne, hold⟩
    · subst hτ; simp at hr
    · exact hi.stageA t' τ' eid' hold hr
  case stageB =>
    intro t' τ' eid' ht' hr
    rcases set_cases ht' with ⟨hEq, hτ, _⟩ | ⟨hne, hold⟩
    · subst hτ; simp at hr
    · exact hi.stageB t' τ' eid' hold hr
  case creatorUnique =>
    intro t1 t2 τ1 τ2 eid' h1 h2 hc1 hc2
    rcases set_cases h1 with ⟨hEq1, hτ1, _⟩ | ⟨hne1, hold1⟩ <;>
      rcases set_cases h2 with ⟨hEq2, hτ2, _⟩ | ⟨hne2, hold2⟩
    · rw [hEq1, hEq2]
    · subst hτ1; simp [mCreator] at hc1
    · subst hτ2; simp [mCreator] at hc2
    · exact hi.creatorUnique t1 t2 τ1 τ2 eid' hold1 hold2 hc1 hc2
  case readyWritten => exact hi.readyWritten
  case writtenVal => exact hi.writtenVal
  case logCount => exact hi.logCount
  case doneFact =>
    intro t' τ' r ht' hd
    rcases set_cases ht' with ⟨hEq, hτ, _⟩ | ⟨hne, hold⟩
    · subst hτ; simp at hd
    · exact hi.doneFact t' τ' r hold hd

theorem MInv_unlockMiss {s : MState} {t : Nat} {τ : MTask} {eid : Nat}
    (hi : MInv s) (ht : s.tasks[t]? = some τ) (hpc : τ.pc = .missUnlock eid)
    (hl : s.lock = some t) :
    MInv { s with lock := none,
                  tasks := s.tasks.set t { τ with pc := .fetching eid } } := by
  have tlen : t < s.tasks.length := getElem?_lt ht
  have href : lookupStore s.store τ.key = some eid :=
    hi.taskRef t τ eid ht (by simp [refsEntry, hpc])
  constructor
  case noPanic => exact hi.noPanic
  case storeKeys => exact hi.storeKeys
  case storeWF => exact hi.storeWF
  case lockHolder => intro t' h'; cases h'
  case lockedImp =>
    intro t' τ' ht' hh'
    rcases set_cases ht' with ⟨hEq, hτ, _⟩ | ⟨hne, hold⟩
    · subst hτ; simp [holdsLockPc] at hh'
    · have := hi.lockedImp t' τ' hold hh'
      have htt : t = t' := Option.some.inj (hl.symm.trans this)
      exact absurd htt.symm hne
  case taskRef =>
    intro t' τ' eid' ht' hr
    rcases set_cases ht' with ⟨hEq, hτ, _⟩ | ⟨hne, hold⟩
    · subst hτ
      rcases hr with h | h | h | h | h <;> simp only [] at h <;>
        first
        | (injection h with h2; subst h2; exact href)
        | cases h
    · exact hi.taskRef t' τ' eid' hold hr
  case stageA =>
    intro t' τ' eid' ht' hr
    rcases set_cases ht' with ⟨hEq, hτ, _⟩ | ⟨hne, hold⟩
    · subst hτ
      simp only [] at hr
      rcases hr with h | h
      · cases h
      · injection h with h2; subst h2
        exact hi.stageA t τ eid ht (Or.inl hpc)
    · exact hi.stageA t' τ' eid' hold hr
  case stageB =>
    intro t' τ' eid' ht' hr
    rcases set_cases ht' with ⟨hEq, hτ, _⟩ | ⟨hne, hold⟩
    · subst hτ; simp at hr
    · exact hi.stageB t' τ' eid' hold hr
  case creatorUnique =>
    intro t1 t2 τ1 τ2 eid' h1 h2 hc1 hc2
    have hτc : mCreator τ.pc eid := Or.inl hpc
    rcases set_cases h1 with ⟨hEq1, hτ1, _⟩ | ⟨hne1, hold1⟩ <;>
      rcases set_cases h2 with ⟨hEq2, hτ2, _⟩ | ⟨hne2, hold2⟩
    · rw [hEq1, hEq2]
    · subst hτ1
      have he' : eid' = eid := by
        rcases hc1 with h | h | h <;> simp only [] at h <;>
          first
          | (injection h with h2; exact h2.symm)
          | cases h
      subst he'
      have := hi.creatorUnique t t2 τ τ2 eid' ht hold2 hτc hc2
      rw [hEq1, this]
    · subst hτ2
      have he' : eid' = eid := by
        rcases hc2 with h | h | h <;> simp only [] at h <;>
          first
          | (injection h with h2; exact h2.symm)
          | cases h
      subst he'
      have := hi.creatorUnique t1 t τ1 τ eid' hold1 ht hc1 hτc
      rw [hEq2, this]
    · exact hi.creatorUnique t1 t2 τ1 τ2 eid' hold1 hold2 hc1 hc2
  case readyWritten => exact hi.readyWritten
  case writtenVal => exact hi.writtenVal
  case logCount => exact hi.logCount
  case doneFact =>
    intro t' τ' r ht' hd
    rcases set_cases ht' with ⟨hEq, hτ, _⟩ | ⟨hne, hold⟩
    · subst hτ; simp at hd
    · exact hi.doneFact t' τ' r hold hd

theorem MInv_unlockHit {s : MState} {t : Nat} {τ : MTask} {eid : Nat}
    (hi : MInv s) (ht : s.tasks[t]? = some τ) (hpc : τ.pc = .hitUnlock eid)
    (hl : s.lock = some t) :
    MInv { s with lock := none,
                  tasks := s.tasks.set t { τ with pc := .waiting eid } } := by
  have tlen : t < s.tasks.length := getElem?_lt ht
  have href : lookupStore s.store τ.key = some eid :=
    hi.taskRef t τ eid ht (by simp [refsEntry, hpc])
  constructor
  case noPanic => exact hi.noPanic
  case storeKeys => exact hi.storeKeys
  case storeWF => exact hi.storeWF
  case lockHolder => intro t' h'; cases h'
  case lockedImp =>
    intro t' τ' ht' hh'
    rcases set_cases ht' with ⟨hEq, hτ, _⟩ | ⟨hne, hold⟩
    · subst hτ; simp [holdsLockPc] at hh'
    · have := hi.lockedImp t' τ' hold hh'
      have htt : t = t' := Option.some.inj (hl.symm.trans this)
      exact absurd htt.symm hne
  case taskRef =>
    intro t' τ' eid' ht' hr
    rcases set_cases ht' with ⟨hEq, hτ, _⟩ | ⟨hne, hold⟩
    · subst hτ
      rcases hr with h | h | h | h | h <;> simp only [] at h <;>
        first
        | (injection h with h2; subst h2; exact href)
        | cases h
    · exact hi.taskRef t' τ' eid' hold hr
  case stageA =>
    intro t' τ' eid' ht' hr
    rcases set_cases ht' with ⟨hEq, hτ, _⟩ | ⟨hne, hold⟩
    · subst hτ; simp at hr
    · exact hi.stageA t' τ' eid' hold hr
  case stageB =>
    intro t' τ' eid' ht' hr
    rcases set_cases ht' with ⟨hEq, hτ, _⟩ | ⟨hne, hold⟩
    · subst hτ; simp at hr
    · exact hi.stageB t' τ' eid' hold hr
  case creatorUnique =>
    intro t1 t2 τ1 τ2 eid' h1 h2 hc1 hc2
    rcases set_cases h1 with ⟨hEq1, hτ1, _⟩ | ⟨hne1, hold1⟩ <;>
      rcases set_cases h2 with ⟨hEq2, hτ2, _⟩ | ⟨hne2, hold2⟩
    · rw [hEq1, hEq2]
    · subst hτ1; simp [mCreator] at hc1
    · subst hτ2; simp [mCreator] at hc2
    · exact hi.creatorUnique t1 t2 τ1 τ2 eid' hold1 hold2 hc1 hc2
  case readyWritten => exact hi.readyWritten
  case writtenVal => exact hi.writtenVal
  case logCount => exact hi.logCount
  case doneFact =>
    intro t' τ' r ht' hd
    rcases set_cases ht' with ⟨hEq, hτ, _⟩ | ⟨hne, hold⟩
    · subst hτ; simp at hd
    · exact hi.doneFact t' τ' r hold hd

theorem MInv_waitRet {s : MState} {t : Nat} {τ : MTask} {eid : Nat} {e : entry}
    (hi : MInv s) (ht : s.tasks[t]? = some τ) (hpc : τ.pc = .waiting eid)
    (he : s.entries[eid]? = some e) (hr : e.ready = true) :
    MInv { s with tasks := s.tasks.set t { τ with pc := .done e.res } } := by
  have tlen : t < s.tasks.length := getElem?_lt ht
  have href : lookupStore s.store τ.key = some eid :=
    hi.taskRef t τ eid ht (by simp [refsEntry, hpc])
  constructor
  case noPanic => exact hi.noPanic
  case storeKeys => exact hi.storeKeys
  case storeWF => exact hi.storeWF
  case lockHolder =>
    intro t' h'
    obtain ⟨τ'', ht'', hh''⟩ := hi.lockHolder t' h'
    by_cases htt : t' = t
    · subst htt
      rw [ht] at ht''
      cases Option.some.inj ht''
      rw [hpc] at hh''
      simp [holdsLockPc] at hh''
    · exact ⟨τ'', by rwa [getElem?_set_ne fun hh => htt hh.symm], hh''⟩
  case lockedImp =>
    intro t' τ' ht' hh'
    rcases set_cases ht' with ⟨hEq, hτ, _⟩ | ⟨hne, hold⟩
    · subst hτ; simp [holdsLockPc] at hh'
    · exact hi.lockedImp t' τ' hold hh'
  case taskRef =>
    intro t' τ' eid' ht' hr'
    rcases set_cases ht' with ⟨hEq, hτ, _⟩ | ⟨hne, hold⟩
    · subst hτ; simp [refsEntry] at hr'
    · exact hi.taskRef t' τ' eid' hold hr'
  case stageA =>
    intro t' τ' eid' ht' hr'
    rcases set_cases ht' with ⟨hEq, hτ, _⟩ | ⟨hne, hold⟩
    · subst hτ; simp at hr'
    · exact hi.stageA t' τ' eid' hold hr'
  case stageB =>
    intro t' τ' eid' ht' hr'
    rcases set_cases ht' with ⟨hEq, hτ, _⟩ | ⟨hne, hold⟩
    · subst hτ; simp at hr'
    · exact hi.stageB t' τ' eid' hold hr'
  case creatorUnique =>
    intro t1 t2 τ1 τ2 eid' h1 h2 hc1 hc2
    rcases set_cases h1 with ⟨hEq1, hτ1, _⟩ | ⟨hne1, hold1⟩ <;>
      rcases set_cases h2 with ⟨hEq2, hτ2, _⟩ | ⟨hne2, hold2⟩
    · rw [hEq1, hEq2]
    · subst hτ1; simp [mCreator] at hc1
    · subst hτ2; simp [mCreator] at hc2
    · exact hi.creatorUnique t1 t2 τ1 τ2 eid' hold1 hold2 hc1 hc2
  case readyWritten => exact hi.readyWritten
  case writtenVal => exact hi.writtenVal
  case logCount => exact hi.logCount
  case doneFact =>
    intro t' τ' r ht' hd
    rcases set_cases ht' with ⟨hEq, hτ, _⟩ | ⟨hne, hold⟩
    · subst hτ
      simp only [] at hd
      injection hd with h2
      exact ⟨eid, e, href, he, hr, h2.symm⟩
    · exact hi.doneFact t' τ' r hold hd

theorem lookup_cons_of_ne_none {st : List (String × Nat)} {k0 k : String}
    {n eid : Nat} (hm : lookupStore st k0 = none)
    (h : lookupStore st k = some eid) :
    lookupStore ((k0, n) :: st) k = some eid := by
  have hk : k ≠ k0 := by
    intro h'
    subst h'
    rw [hm] at h
    cases h
  simp [lookupStore, hk, h]

theorem MInv_lookupMiss {s : MState} {t : Nat} {τ : MTask}
    (hi : MInv s) (ht : s.tasks[t]? = some τ) (hpc : τ.pc = .locked)
    (hl : s.lock = some t)
    (hm : lookupStore s.store τ.key = none) :
    MInv { s with entries := s.entries ++ [newEntry τ.key],
                  store := (τ.key, s.entries.length) :: s.store,
                  tasks := s.tasks.set t { τ with pc := .missUnlock s.entries.length } } := by
  have tlen : t < s.tasks.length := getElem?_lt ht
  have hfreshTask : ∀ (t2 : Nat) (τ2 : MTask), s.tasks[t2]? = some τ2 →
      ¬ mCreator τ2.pc s.entries.length := by
    intro t2 τ2 h2 hc
    have := hi.taskRef t2 τ2 s.entries.length h2 (mCreator_refs hc)
    obtain ⟨e, he, _⟩ := hi.storeWF τ2.key s.entries.length this
    exact absurd (getElem?_lt he) (Nat.lt_irrefl _)
  constructor
  case noPanic => exact hi.noPanic
  case storeKeys =>
    refine List.Nodup.cons ?_ hi.storeKeys
    intro hmem
    exact lookupStore_not_mem hm (by simpa using hmem)
  case storeWF =>
    intro k eid h'
    simp only [lookupStore] at h'
    by_cases hk : k = τ.key
    · rw [if_pos hk] at h'
      injection h' with h2
      subst h2
      exact ⟨newEntry τ.key, getElem?_append_len _ _, hk.symm⟩
    · rw [if_neg hk] at h'
      obtain ⟨e, he, hurl⟩ := hi.storeWF k eid h'
      exact ⟨e, by rw [getElem?_append_lt (getElem?_lt he)]; exact he, hurl⟩
  case lockHolder =>
    intro t' h'
    have htt : t = t' := Option.some.inj (hl.symm.trans h')
    subst htt
    exact ⟨{ τ with pc := .missUnlock s.entries.length }, getElem?_set_self tlen, rfl⟩
  case lockedImp =>
    intro t' τ' ht' hh'
    rcases set_cases ht' with ⟨hEq, hτ, _⟩ | ⟨hne, hold⟩
    · rw [hEq]; exact hl
    · exact hi.lockedImp t' τ' hold hh'
  case taskRef =>
    intro t' τ' eid' ht' hr
    rcases set_cases ht' with ⟨hEq, hτ, _⟩ | ⟨hne, hold⟩
    · subst hτ
      rcases hr with h | h | h | h | h <;> simp only [] at h <;>
        first
        | (injection h with h2; subst h2; simp [lookupStore])
        | cases h
    · have := hi.taskRef t' τ' eid' hold hr
      exact lookup_cons_of_ne_none hm this
  case stageA =>
    intro t' τ' eid' ht' hr
    rcases set_cases ht' with ⟨hEq, hτ, _⟩ | ⟨hne, hold⟩
    · subst hτ
      simp only [] at hr
      rcases hr with h | h
      · injection h with h2
        subst h2
        exact ⟨newEntry τ.key, getElem?_append_len _ _, rfl, rfl⟩
      · cases h
    · obtain ⟨e, he, hw, hrd⟩ := hi.stageA t' τ' eid' hold hr
      exact ⟨e, by rw [getElem?_append_lt (getElem?_lt he)]; exact he, hw, hrd⟩
  case stageB =>
    intro t' τ' eid' ht' hr
    rcases set_cases ht' with ⟨hEq, hτ, _⟩ | ⟨hne, hold⟩
    · subst hτ; simp at hr
    · obtain ⟨e, he, hw, hrd⟩ := hi.stageB t' τ' eid' hold hr
      exact ⟨e, by rw [getElem?_append_lt (getElem?_lt he)]; exact he, hw, hrd⟩
  case creatorUnique =>
    intro t1 t2 τ1 τ2 eid' h1 h2 hc1 hc2
    rcases set_cases h1 with ⟨hEq1, hτ1, _⟩ | ⟨hne1, hold1⟩ <;>
      rcases set_cases h2 with ⟨hEq2, hτ2, _⟩ | ⟨hne2, hold2⟩
    · rw [hEq1, hEq2]
    · subst hτ1
      have he' : eid' = s.entries.length := by
        rcases hc1 with h | h | h <;> simp only [] at h <;>
          first
          | (injection h with h2; exact h2.symm)
          | cases h
      subst he'
      exact absurd hc2 (hfreshTask t2 τ2 hold2)
    · subst hτ2
      have he' : eid' = s.entries.length := by
        rcases hc2 with h | h | h <;> simp only [] at h <;>
          first
          | (injection h with h2; exact h2.symm)
          | cases h
      subst he'
      exact absurd hc1 (hfreshTask t1 τ1 hold1)
    · exact hi.creatorUnique t1 t2 τ1 τ2 eid' hold1 hold2 hc1 hc2
  case readyWritten =>
    intro eid' e' h' hrd
    rcases append_cases h' with ⟨hEq, hx⟩ | ⟨hlt, hold⟩
    · subst hx; simp [newEntry] at hrd
    · exact hi.readyWritten eid' e' hold hrd
  case writtenVal =>
    intro eid' e' h' hw
    rcases append_cases h' with ⟨hEq, hx⟩ | ⟨hlt, hold⟩
    · subst hx; simp [newEntry] at hw
    · exact hi.writtenVal eid' e' hold hw
  case logCount =>
    intro k
    rw [hi.logCount k]
    by_cases hk : k = τ.key
    · subst hk
      have hc : lookupStore ((τ.key, s.entries.length) :: s.store) τ.key =
          some s.entries.length := by simp [lookupStore]
      rw [fetchWeight_none hm,
        fetchWeight_some hc (getElem?_append_len s.entries (newEntry τ.key))]
      simp [newEntry]
    · have hc : lookupStore ((τ.key, s.entries.length) :: s.store) k =
          lookupStore s.store k := by simp [lookupStore, hk]
      rcases hl2 : lookupStore s.store k with _ | eid
      · rw [fetchWeight_none hl2, fetchWeight_none (hc.trans hl2)]
      · obtain ⟨e, he, _⟩ := hi.storeWF k eid hl2
        rw [fetchWeight_some hl2 he, fetchWeight_some (hc.trans hl2)
          (by rw [getElem?_append_lt (getElem?_lt he)]; exact he)]
  case doneFact =>
    intro t' τ' r ht' hd
    rcases set_cases ht' with ⟨hEq, hτ, _⟩ | ⟨hne, hold⟩
    · subst hτ; simp at hd
    · obtain ⟨eid, e, hlk, he, hrd, hres⟩ := hi.doneFact t' τ' r hold hd
      exact ⟨eid, e, lookup_cons_of_ne_none hm hlk,
        by rw [getElem?_append_lt (getElem?_lt he)]; exact he, hrd, hres⟩

theorem MInv_fetch {s : MState} {t : Nat} {τ : MTask} {eid : Nat} {e : entry}
    (hi : MInv s) (ht : s.tasks[t]? = some τ) (hpc : τ.pc = .fetching eid)
    (he : s.entries[eid]? = some e) :
    MInv { s with entries := s.entries.set eid
                    { e with res := { e.res with value := (s.fn τ.key).1,
                                                 err := (s.fn τ.key).2 },
                             written := true },
                  fetchLog := τ.key :: s.fetchLog,
                  tasks := s.tasks.set t { τ with pc := .closing eid } } := by
  have tlen : t < s.tasks.length := getElem?_lt ht
  have elen : eid < s.entries.length := getElem?_lt he
  have href : lookupStore s.store τ.key = some eid :=
    hi.taskRef t τ eid ht (by simp [refsEntry, hpc])
  have hwr : e.written = false ∧ e.ready = false := by
    obtain ⟨e₀, he₀, hw₀, hr₀⟩ := hi.stageA t τ eid ht (Or.inr hpc)
    rw [he] at he₀
    cases Option.some.inj he₀
    exact ⟨hw₀, hr₀⟩
  have hurl : e.res.url = τ.key := by
    obtain ⟨e₁, he₁, hurl₁⟩ := hi.storeWF τ.key eid href
    rw [he] at he₁
    cases Option.some.inj he₁
    exact hurl₁
  have hτc : mCreator τ.pc eid := Or.inr (Or.inl hpc)
  constructor
  case noPanic => exact hi.noPanic
  case storeKeys => exact hi.storeKeys
  case storeWF =>
    intro k eid' h'
    obtain ⟨e', he', hurl'⟩ := hi.storeWF k eid' h'
    by_cases heq : eid' = eid
    · subst heq
      rw [he] at he'
      cases Option.some.inj he'
      exact ⟨_, getElem?_set_self elen, hurl'⟩
    · exact ⟨e', by rw [getElem?_set_ne fun hh => heq hh.symm]; exact he', hurl'⟩
  case lockHolder =>
    intro t' h'
    obtain ⟨τ'', ht'', hh''⟩ := hi.lockHolder t' h'
    by_cases htt : t' = t
    · subst htt
      rw [ht] at ht''
      cases Option.some.inj ht''
      rw [hpc] at hh''
      simp [holdsLockPc] at hh''
    · exact ⟨τ'', by rwa [getElem?_set_ne fun hh => htt hh.symm], hh''⟩
  case lockedImp =>
    intro t' τ' ht' hh'
    rcases set_cases ht' with ⟨hEq, hτ, _⟩ | ⟨hne, hold⟩
    · subst hτ; simp [holdsLockPc] at hh'
    · exact hi.lockedImp t' τ' hold hh'
  case taskRef =>
    intro t' τ' eid' ht' hr
    rcases set_cases ht' with ⟨hEq, hτ, _⟩ | ⟨hne, hold⟩
    · subst hτ
      rcases hr with h | h | h | h | h <;> simp only [] at h <;>
        first
        | (injection h with h2; subst h2; exact href)
        | cases h
    · exact hi.taskRef t' τ' eid' hold hr
  case stageA =>
    intro t' τ' eid' ht' hr
    rcases set_cases ht' with ⟨hEq, hτ, _⟩ | ⟨hne, hold⟩
    · subst hτ; simp at hr
    · obtain ⟨e', he', hw', hrd'⟩ := hi.stageA t' τ' eid' hold hr
      by_cases heq : eid' = eid
      · subst heq
        have hc' : mCreator τ'.pc eid' := by
          rcases hr with h | h
          · exact Or.inl h
          · exact Or.inr (Or.inl h)
        exact absurd (hi.creatorUnique t' t τ' τ eid' hold ht hc' hτc)
          hne
      · exact ⟨e', by rw [getElem?_set_ne fun hh => heq hh.symm]; exact he', hw', hrd'⟩
  case stageB =>
    intro t' τ' eid' ht' hr
    rcases set_cases ht' with ⟨hEq, hτ, _⟩ | ⟨hne, hold⟩
    · subst hτ
      simp only [] at hr
      injection hr with h2
      subst h2
      exact ⟨_, getElem?_set_self elen, rfl, hwr.2⟩
    · obtain ⟨e', he', hw', hrd'⟩ := hi.stageB t' τ' eid' hold hr
      by_cases heq : eid' = eid
      · subst heq
        exact absurd (hi.creatorUnique t' t τ' τ eid' hold ht
          (Or.inr (Or.inr hr)) hτc) hne
      · exact ⟨e', by rw [getElem?_set_ne fun hh => heq hh.symm]; exact he', hw', hrd'⟩
  case creatorUnique =>
    intro t1 t2 τ1 τ2 eid' h1 h2 hc1 hc2
    rcases set_cases h1 with ⟨hEq1, hτ1, _⟩ | ⟨hne1, hold1⟩ <;>
      rcases set_cases h2 with ⟨hEq2, hτ2, _⟩ | ⟨hne2, hold2⟩
    · rw [hEq1, hEq2]
    · subst hτ1
      have he' : eid' = eid := by
        rcases hc1 with h | h | h <;> simp only [] at h <;>
          first
          | (injection h with h2; exact h2.symm)
          | cases h
      subst he'
      have := hi.creatorUnique t t2 τ τ2 eid' ht hold2 hτc hc2
      rw [hEq1, this]
    · subst hτ2
      have he' : eid' = eid := by
        rcases hc2 with h | h | h <;> simp only [] at h <;>
          first
          | (injection h with h2; exact h2.symm)
          | cases h
      subst he'
      have := hi.creatorUnique t1 t τ1 τ eid' hold1 ht hc1 hτc
      rw [hEq2, this]
    · exact hi.creatorUnique t1 t2 τ1 τ2 eid' hold1 hold2 hc1 hc2
  case readyWritten =>
    intro eid' e' h' hrd'
    rcases set_cases h' with ⟨hEq, hx, _⟩ | ⟨hne, hold⟩
    · subst hx; rfl
    · exact hi.readyWritten eid' e' hold hrd'
  case writtenVal =>
    intro eid' e' h' hw'
    rcases set_cases h' with ⟨hEq, hx, _⟩ | ⟨hne, hold⟩
    · subst hx
      refine ⟨?_, ?_⟩ <;> simp only [] <;> rw [hurl]
    · exact hi.writtenVal eid' e' hold hw'
  case logCount =>
    intro k
    rw [countKey_cons]
    by_cases hk : τ.key = k
    · subst hk
      rw [if_pos rfl, hi.logCount τ.key, fetchWeight_some href he,
        fetchWeight_some href (getElem?_set_self elen)]
      rw [hwr.1]
      simp
    · rw [if_neg hk, hi.logCount k]
      rcases hl2 : lookupStore s.store k with _ | eid''
      · rw [fetchWeight_none hl2, fetchWeight_none hl2]
      · obtain ⟨e₂, he₂, hurl₂⟩ := hi.storeWF k eid'' hl2
        have heq : eid'' ≠ eid := by
          intro hh
          subst hh
          rw [he] at he₂
          cases Option.some.inj he₂
          exact hk (hurl.symm.trans hurl₂)
        rw [fetchWeight_some hl2 he₂, fetchWeight_some hl2
          (by rw [getElem?_set_ne fun hh => heq hh.symm]; exact he₂)]
        simp
  case doneFact =>
    intro t' τ' r ht' hd
    rcases set_cases ht' with ⟨hEq, hτ, _⟩ | ⟨hne, hold⟩
    · subst hτ; simp at hd
    · obtain ⟨eid₂, e₂, hlk₂, he₂, hrd₂, hres₂⟩ := hi.doneFact t' τ' r hold hd
      have heq : eid₂ ≠ eid := by
        intro hh
        subst hh
        rw [he] at he₂
        cases Option.some.inj he₂
        rw [hwr.2] at hrd₂
        cases hrd₂
      exact ⟨eid₂, e₂, hlk₂,
        by rw [getElem?_set_ne fun hh => heq hh.symm]; exact he₂, hrd₂, hres₂⟩

theorem MInv_closeRet {s : MState} {t : Nat} {τ : MTask} {eid : Nat} {e : entry}
    (hi : MInv s) (ht : s.tasks[t]? = some τ) (hpc : τ.pc = .closing eid)
    (he : s.entries[eid]? = some e) (hr : e.ready = false) :
    MInv { s with entries := s.entries.set eid { e with ready := true },
                  tasks := s.tasks.set t { τ with pc := .done e.res } } := by
  have tlen : t < s.tasks.length := getElem?_lt ht
  have elen : eid < s.entries.length := getElem?_lt he
  have href : lookupStore s.store τ.key = some eid :=
    hi.taskRef t τ eid ht (by simp [refsEntry, hpc])
  have hw : e.written = true := by
    obtain ⟨e₀, he₀, hw₀, _⟩ := hi.stageB t τ eid ht hpc
    rw [he] at he₀
    cases Option.some.inj he₀
    exact hw₀
  have hτc : mCreator τ.pc eid := Or.inr (Or.inr hpc)
  constructor
  case noPanic => exact hi.noPanic
  case storeKeys => exact hi.storeKeys
  case storeWF =>
    intro k eid' h'
    obtain ⟨e', he', hurl'⟩ := hi.storeWF k eid' h'
    by_cases heq : eid' = eid
    · subst heq
      rw [he] at he'
      cases Option.some.inj he'
      exact ⟨_, getElem?_set_self elen, hurl'⟩
    · exact ⟨e', by rw [getElem?_set_ne fun hh => heq hh.symm]; exact he', hurl'⟩
  case lockHolder =>
    intro t' h'
    obtain ⟨τ'', ht'', hh''⟩ := hi.lockHolder t' h'
    by_cases htt : t' = t
    · subst htt
      rw [ht] at ht''
      cases Option.some.inj ht''
      rw [hpc] at hh''
      simp [holdsLockPc] at hh''
    · exact ⟨τ'', by rwa [getElem?_set_ne fun hh => htt hh.symm], hh''⟩
  case lockedImp =>
    intro t' τ' ht' hh'
    rcases set_cases ht' with ⟨hEq, hτ, _⟩ | ⟨hne, hold⟩
    · subst hτ; simp [holdsLockPc] at hh'
    · exact hi.lockedImp t' τ' hold hh'
  case taskRef =>
    intro t' τ' eid' ht' hr'
    rcases set_cases ht' with ⟨hEq, hτ, _⟩ | ⟨hne, hold⟩
    · subst hτ; simp [refsEntry] at hr'
    · exact hi.taskRef t' τ' eid' hold hr'
  case stageA =>
    intro t' τ' eid' ht' hr'
    rcases set_cases ht' with ⟨hEq, hτ, _⟩ | ⟨hne, hold⟩
    · subst hτ; simp at hr'
    · obtain ⟨e', he', hw', hrd'⟩ := hi.stageA t' τ' eid' hold hr'
      by_cases heq : eid' = eid
      · subst heq
        have hc' : mCreator τ'.pc eid' := by
          rcases hr' with h | h
          · exact Or.inl h
          · exact Or.inr (Or.inl h)
        exact absurd (hi.creatorUnique t' t τ' τ eid' hold ht hc' hτc) hne
      · exact ⟨e', by rw [getElem?_set_ne fun hh => heq hh.symm]; exact he', hw', hrd'⟩
  case stageB =>
    intro t' τ' eid' ht' hr'
    rcases set_cases ht' with ⟨hEq, hτ, _⟩ | ⟨hne, hold⟩
    · subst hτ; simp at hr'
    · by_cases heq : eid' = eid
      · subst heq
        exact absurd (hi.creatorUnique t' t τ' τ eid' hold ht
          (Or.inr (Or.inr hr')) hτc) hne
      · obtain ⟨e', he', hw', hrd'⟩ := hi.stageB t' τ' eid' hold hr'
        exact ⟨e', by rw [getElem?_set_ne fun hh => heq hh.symm]; exact he', hw', hrd'⟩
  case creatorUnique =>
    intro t1 t2 τ1 τ2 eid' h1 h2 hc1 hc2
    rcases set_cases h1 with ⟨hEq1, hτ1, _⟩ | ⟨hne1, hold1⟩ <;>
      rcases set_cases h2 with ⟨hEq2, hτ2, _⟩ | ⟨hne2, hold2⟩
    · rw [hEq1, hEq2]
    · subst hτ1; simp [mCreator] at hc1
    · subst hτ2; simp [mCreator] at hc2
    · exact hi.creatorUnique t1 t2 τ1 τ2 eid' hold1 hold2 hc1 hc2
  case readyWritten =>
    intro eid' e' h' hrd'
    rcases set_cases h' with ⟨hEq, hx, _⟩ | ⟨hne, hold⟩
    · subst hx; exact hw
    · exact hi.readyWritten eid' e' hold hrd'
  case writtenVal =>
    intro eid' e' h' hw'
    rcases set_cases h' with ⟨hEq, hx, _⟩ | ⟨hne, hold⟩
    · subst hx
      exact hi.writtenVal eid e he hw
    · exact hi.writtenVal eid' e' hold hw'
  case logCount =>
    intro k
    rw [hi.logCount k]
    rcases hl2 : lookupStore s.store k with _ | eid''
    · rw [fetchWeight_none hl2, fetchWeight_none hl2]
    · obtain ⟨e₂, he₂, hurl₂⟩ := hi.storeWF k eid'' hl2
      by_cases heq : eid'' = eid
      · subst heq
        rw [he] at he₂
        cases Option.some.inj he₂
        rw [fetchWeight_some hl2 he, fetchWeight_some hl2 (getElem?_set_self elen)]
      · rw [fetchWeight_some hl2 he₂, fetchWeight_some hl2
          (by rw [getElem?_set_ne fun hh => heq hh.symm]; exact he₂)]
  case doneFact =>
    intro t' τ' r ht' hd
    rcases set_cases ht' with ⟨hEq, hτ, _⟩ | ⟨hne, hold⟩
    · subst hτ
      simp only [] at hd
      injection hd with h2
      exact ⟨eid, { e with ready := true }, href, getElem?_set_self elen,
        rfl, h2.symm⟩
    · obtain ⟨eid₂, e₂, hlk₂, he₂, hrd₂, hres₂⟩ := hi.doneFact t' τ' r hold hd
      by_cases heq : eid₂ = eid
      · subst heq
        rw [he] at he₂
        cases Option.some.inj he₂
        exact ⟨eid₂, { e with ready := true }, hlk₂, getElem?_set_self elen,
          rfl, hres₂⟩
      · exact ⟨eid₂, e₂, hlk₂,
          by rw [getElem?_set_ne fun hh => heq hh.symm]; exact he₂, hrd₂, hres₂⟩

theorem MInv_closeAgain_absurd {s : MState} {t : Nat} {τ : MTask} {eid : Nat}
    {e : entry} (hi : MInv s) (ht : s.tasks[t]? = some τ)
    (hpc : τ.pc = .closing eid) (he : s.entries[eid]? = some e)
    (hr : e.ready = true) : False := by
  obtain ⟨e₀, he₀, _, hr₀⟩ := hi.stageB t τ eid ht hpc
  rw [he] at he₀
  cases Option.some.inj he₀
  rw [hr₀] at hr
  cases hr

theorem MInv_step {s s' : MState} (hi : MInv s) (h : MStep s s') : MInv s' := by
  cases h with
  | lockAcq t τ hp ht hpc hl => exact MInv_lockAcq hi ht hpc hl
  | lookupMiss t τ hp ht hpc hl hm => exact MInv_lookupMiss hi ht hpc hl hm
  | lookupHit t τ eid hp ht hpc hl hh => exact MInv_lookupHit hi ht hpc hl hh
  | unlockMiss t τ eid hp ht hpc hl => exact MInv_unlockMiss hi ht hpc hl
  | unlockHit t τ eid hp ht hpc hl => exact MInv_unlockHit hi ht hpc hl
  | fetch t τ eid e hp ht hpc he => exact MInv_fetch hi ht hpc he
  | closeRet t τ eid e hp ht hpc he hr => exact MInv_closeRet hi ht hpc he hr
  | closeAgain t τ eid e hp ht hpc he hr =>
      exact (MInv_closeAgain_absurd hi ht hpc he hr).elim
  | waitRet t τ eid e hp ht hpc he hr => exact MInv_waitRet hi ht hpc he hr

theorem MReach_MInv {f : Func} {keys : List String} {s : MState}
    (h : MReach (NewMutexCache f keys) s) : MInv s := by
  induction h with
  | refl => exact MInv_init f keys
  | tail hab hbc ih => exact MInv_step ih hbc

theorem MStep_fn {s s' : MState} (h : MStep s s') : s'.fn = s.fn := by
  cases h <;> rfl

theorem MReach_fn {s s' : MState} (h : MReach s s') : s'.fn = s.fn := by
  induction h with
  | refl => rfl
  | tail hab hbc ih => rw [MStep_fn hbc, ih]

theorem MStep_store_mono {s s' : MState} (h : MStep s s') {k : String}
    {eid : Nat} (hl : lookupStore s.store k = some eid) :
    lookupStore s'.store k = some eid := by
  cases h with
  | lookupMiss t τ hp ht hpc hlk hm => exact lookup_cons_of_ne_none hm hl
  | _ => exact hl

theorem MReach_store_mono {s s' : MState} (h : MReach s s') {k : String}
    {eid : Nat} (hl : lookupStore s.store k = some eid) :
    lookupStore s'.store k = some eid := by
  induction h with
  | refl => exact hl
  | tail hab hbc ih => exact MStep_store_mono hbc ih

/-! ## The confinement strategy: cache.Get / handleRequests / entry.call /
entry.deliver (cache.go lines 82-135), plus the stop channel closed by
main's shutdown function (line 281).

One GetTask per Get call; the worker processes requests; each cache
miss spawns one CallTask (the goroutine running e.call, line 127) and
each cache hit spawns one DelTask (the goroutine running e.deliver,
line 132).  A Get call's reply channel is identified with the index of
its GetTask; the unbuffered channel rendezvous of a send and its
matching receive is a single transition. -/

/-- Program counter of a task executing cache.Get: sendReq is before
the send on c.reqStream; awaitResp is before the receive on its
respStream; done r has returned r; crashed means the task panicked
sending on the closed reqStream. -/
inductive GetPc where
  | sendReq
  | awaitResp
  | done (r : response)
  | crashed
deriving DecidableEq, Repr

/-- Program counter of a goroutine running e.call (cache.go 70-74):
run is before f(key); closingCh is before close(e.ready); sending is
before the send on respStream; finished has returned. -/
inductive CallPc where
  | run
  | closingCh
  | sending
  | finished
deriving DecidableEq, Repr

/-- Program counter of a goroutine running e.deliver (cache.go 77-80):
waitReady is before the receive on e.ready; sending is before the send
on respStream; finished has returned. -/
inductive DelPc where
  | waitReady
  | sending
  | finished
deriving DecidableEq, Repr

/-- A task running cache.Get key. -/
structure GetTask where
  key : String
  pc : GetPc
deriving DecidableEq, Repr

/-- A goroutine running e.call f key respStream: eid names the entry e,
target the GetTask owning the respStream it was handed. -/
structure CallTask where
  eid : Nat
  key : String
  target : Nat
  pc : CallPc
deriving DecidableEq, Repr

/-- A goroutine running e.deliver respStream. -/
structure DelTask where
  eid : Nat
  target : Nat
  pc : DelPc
deriving DecidableEq, Repr

/-- State of the confinement strategy: the cache struct (fn, store,
entries), the worker status of handleRequests, the reqStream and stop
channels' closed flags, the task pools, the ghost fetch log and the Go
panic flag.  workerRunning is true while handleRequests still loops. -/
structure CState where
  fn : Func
  store : List (String × Nat)
  entries : List entry
  workerRunning : Bool
  reqClosed : Bool
  stopClosed : Bool
  gets : List GetTask
  calls : List CallTask
  dels : List DelTask
  fetchLog : List String
  panicked : Bool

/-- NewCache of cache.go, with one Get task spawned per requested key:
empty store, worker running, reqStream and stop channels open. -/
def NewCache (f : Func) (keys : List String) : CState :=
  { fn := f
    store := []
    entries := []
    workerRunning := true
    reqClosed := false
    stopClosed := false
    gets := keys.map fun k => { key := k, pc := .sendReq }
    calls := []
    dels := []
    fetchLog := []
    panicked := false }

/-- Small-step interleaving semantics of the confinement strategy.
serveMiss / serveHit are the rendezvous of a Get's reqStream send
(line 97) with one iteration of the worker's loop body (lines
116-133); the worker's lookup, nil test, entry creation, store insert
and goroutine spawn form one step because the worker is the only task
that ever touches the store.  workerExit is the stop branch (lines
111-114): it closes reqStream and leaves the loop.  sendReqClosed is a
Get's send on the closed reqStream, which panics in Go.  stopTrigger /
stopTriggerAgain model close(stop) in main's shutdown function; Go
panics on closing an already-closed channel. -/
inductive CStep : CState → CState → Prop where
  | serveMiss (s : CState) (t : Nat) (τ : GetTask)
      (hp : s.panicked = false)
      (hw : s.workerRunning = true) (hc : s.reqClosed = false)
      (ht : s.gets[t]? = some τ) (hpc : τ.pc = .sendReq)
      (hm : lookupStore s.store τ.key = none) :
      CStep s { s with entries := s.entries ++ [newEntry τ.key]
                       store := (τ.key, s.entries.length) :: s.store
                       calls := s.calls ++
                         [{ eid := s.entries.length, key := τ.key,
                            target := t, pc := .run }]
                       gets := s.gets.set t { τ with pc := .awaitResp } }
  | serveHit (s : CState) (t : Nat) (τ : GetTask) (eid : Nat)
      (hp : s.panicked = false)
      (hw : s.workerRunning = true) (hc : s.reqClosed = false)
      (ht : s.gets[t]? = some τ) (hpc : τ.pc = .sendReq)
      (hh : lookupStore s.store τ.key = some eid) :
      CStep s { s with dels := s.dels ++
                         [{ eid := eid, target := t, pc := .waitReady }]
                       gets := s.gets.set t { τ with pc := .awaitResp } }
  | workerExit (s : CState)
      (hp : s.panicked = false)
      (hw : s.workerRunning = true) (hs : s.stopClosed = true) :
      CStep s { s with workerRunning := false, reqClosed := true }
  | sendReqClosed (s : CState) (t : Nat) (τ : GetTask)
      (hp : s.panicked = false)
      (hc : s.reqClosed = true)
      (ht : s.gets[t]? = some τ) (hpc : τ.pc = .sendReq) :
      CStep s { s with gets := s.gets.set t { τ with pc := .crashed }
                       panicked := true }
  | callRun (s : CState) (i : Nat) (c : CallTask) (e : entry)
      (hp : s.panicked = false)
      (hi : s.calls[i]? = some c) (hpc : c.pc = .run)
      (he : s.entries[c.eid]? = some e) :
      CStep s { s with entries := s.entries.set c.eid
                         { e with res := { e.res with value := (s.fn c.key).1,
                                                      err := (s.fn c.key).2 },
                                  written := true },
                       fetchLog := c.key :: s.fetchLog,
                       calls := s.calls.set i { c with pc := .closingCh } }
  | callClose (s : CState) (i : Nat) (c : CallTask) (e : entry)
      (hp : s.panicked = false)
      (hi : s.calls[i]? = some c) (hpc : c.pc = .closingCh)
      (he : s.entries[c.eid]? = some e) (hr : e.ready = false) :
      CStep s { s with entries := s.entries.set c.eid { e with ready := true }
                       calls := s.calls.set i { c with pc := .sending } }
  | callCloseAgain (s : CState) (i : Nat) (c : CallTask) (e : entry)
      (hp : s.panicked = false)
      (hi : s.calls[i]? = some c) (hpc : c.pc = .closingCh)
      (he : s.entries[c.eid]? = some e) (hr : e.ready = true) :
      CStep s { s with panicked := true }
  | callSend (s : CState) (i : Nat) (c : CallTask) (e : entry) (τ : GetTask)
      (hp : s.panicked = false)
      (hi : s.calls[i]? = some c) (hpc : c.pc = .sending)
      (he : s.entries[c.eid]? = some e)
      (ht : s.gets[c.target]? = some τ) (hw : τ.pc = .awaitResp) :
      CStep s { s with gets := s.gets.set c.target { τ with pc := .done e.res }
                       calls := s.calls.set i { c with pc := .finished } }
  | delWait (s : CState) (i : Nat) (d : DelTask) (e : entry)
      (hp : s.panicked = false)
      (hi : s.dels[i]? = some d) (hpc : d.pc = .waitReady)
      (he : s.entries[d.eid]? = some e) (hr : e.ready = true) :
      CStep s { s with dels := s.dels.set i { d with pc := .sending } }
  | delSend (s : CState) (i : Nat) (d : DelTask) (e : entry) (τ : GetTask)
      (hp : s.panicked = false)
      (hi : s.dels[i]? = some d) (hpc : d.pc = .sending)
      (he : s.entries[d.eid]? = some e)
      (ht : s.gets[d.target]? = some τ) (hw : τ.pc = .awaitResp) :
      CStep s { s with gets := s.gets.set d.target { τ with pc := .done e.res }
                       dels := s.dels.set i { d with pc := .finished } }
  | stopTrigger (s : CState)
      (hp : s.panicked = false)
      (hs : s.stopClosed = false) :
      CStep s { s with stopClosed := true }
  | stopTriggerAgain (s : CState)
      (hp : s.panicked = false)
      (hs : s.stopClosed = true) :
      CStep s { s with panicked := true }

/-- Reachability for the confinement strategy. -/
def CReach : CState → CState → Prop := Relation.ReflTransGen CStep

theorem CReach_head {s t u : CState} (h1 : CStep s t) (h2 : CReach t u) :
    CReach s u :=
  Relation.ReflTransGen.head h1 h2

theorem CReach_refl (s : CState) : CReach s s :=
  Relation.ReflTransGen.refl

/-! ## The confinement-strategy invariant -/

/-- Inductive invariant of the confinement strategy. -/
structure CInv (s : CState) : Prop where
  storeKeys : (s.store.map Prod.fst).Nodup
  storeWF : ∀ (k : String) (eid : Nat), lookupStore s.store k = some eid →
    ∃ e, s.entries[eid]? = some e ∧ e.res.url = k
  workerReq : s.reqClosed = !s.workerRunning
  callsWF : ∀ (i : Nat) (c : CallTask), s.calls[i]? = some c →
    lookupStore s.store c.key = some c.eid ∧
    ∃ τ, s.gets[c.target]? = some τ ∧ τ.key = c.key
  callUnique : ∀ (i j : Nat) (c c' : CallTask), s.calls[i]? = some c →
    s.calls[j]? = some c' → c.eid = c'.eid → i = j
  callStageRun : ∀ (i : Nat) (c : CallTask) (e : entry),
    s.calls[i]? = some c → s.entries[c.eid]? = some e → c.pc = .run →
    e.written = false ∧ e.ready = false
  callStageClose : ∀ (i : Nat) (c : CallTask) (e : entry),
    s.calls[i]? = some c → s.entries[c.eid]? = some e → c.pc = .closingCh →
    e.written = true ∧ e.ready = false
  callStageSend : ∀ (i : Nat) (c : CallTask) (e : entry),
    s.calls[i]? = some c → s.entries[c.eid]? = some e →
    (c.pc = .sending ∨ c.pc = .finished) → e.ready = true
  delsWF : ∀ (i : Nat) (d : DelTask), s.dels[i]? = some d →
    ∃ e, s.entries[d.eid]? = some e ∧
      lookupStore s.store e.res.url = some d.eid ∧
      (∃ τ, s.gets[d.target]? = some τ ∧ τ.key = e.res.url) ∧
      (d.pc = .sending → e.ready = true)
  readyWritten : ∀ (eid : Nat) (e : entry), s.entries[eid]? = some e →
    e.ready = true → e.written = true
  writtenVal : ∀ (eid : Nat) (e : entry), s.entries[eid]? = some e →
    e.written = true →
    e.res.value = (s.fn e.res.url).1 ∧ e.res.err = (s.fn e.res.url).2
  logCount : ∀ (k : String),
    countKey s.fetchLog k = fetchWeight s.store s.entries k
  doneFact : ∀ (t : Nat) (τ : GetTask) (r : response), s.gets[t]? = some τ →
    τ.pc = .done r →
    ∃ eid e, lookupStore s.store τ.key = some eid ∧
      s.entries[eid]? = some e ∧ e.ready = true ∧ r = e.res

theorem CInv_init (f : Func) (keys : List String) :
    CInv (NewCache f keys) := by
  have hget : ∀ (t : Nat) (τ : GetTask), (NewCache f keys).gets[t]? = some τ →
      τ.pc = .sendReq := by
    intro t τ ht
    simp only [NewCache] at ht
    rw [List.getElem?_map] at ht
    rcases h : keys[t]? with _ | k
    · rw [h] at ht; simp at ht
    · rw [h] at ht
      injection ht with h2
      rw [← h2]
  constructor
  case storeKeys => simp [NewCache]
  case storeWF => intro k eid h; simp [NewCache, lookupStore] at h
  case workerReq => rfl
  case callsWF => intro i c h; simp [NewCache] at h
  case callUnique => intro i j c c' h; simp [NewCache] at h
  case callStageRun => intro i c e h; simp [NewCache] at h
  case callStageClose => intro i c e h; simp [NewCache] at h
  case callStageSend => intro i c e h; simp [NewCache] at h
  case delsWF => intro i d h; simp [NewCache] at h
  case readyWritten => intro eid e h; simp [NewCache] at h
  case writtenVal => intro eid e h; simp [NewCache] at h
  case logCount => intro k; simp [NewCache, countKey, fetchWeight, lookupStore]
  case doneFact =>
    intro t τ r ht hd
    rw [hget t τ ht] at hd
    cases hd

/-! ## Preservation of the confinement-strategy invariant -/

theorem CInv_serveMiss {s : CState} {t : Nat} {τ : GetTask}
    (hi : CInv s) (ht : s.gets[t]? = some τ) (hpc : τ.pc = .sendReq)
    (hm : lookupStore s.store τ.key = none) :
    CInv { s with entries := s.entries ++ [newEntry τ.key],
                  store := (τ.key, s.entries.length) :: s.store,
                  calls := s.calls ++
                    [{ eid := s.entries.length, key := τ.key,
                       target := t, pc := .run }],
                  gets := s.gets.set t { τ with pc := .awaitResp } } := by
  have tlen : t < s.gets.length := getElem?_lt ht
  have hcl : ∀ (j : Nat) (c' : CallTask), s.calls[j]? = some c' →
      c'.eid < s.entries.length := by
    intro j c' hj
    obtain ⟨hlk, _⟩ := hi.callsWF j c' hj
    obtain ⟨e, he, _⟩ := hi.storeWF c'.key c'.eid hlk
    exact getElem?_lt he
  constructor
  case storeKeys =>
    refine List.Nodup.cons ?_ hi.storeKeys
    intro hmem
    exact lookupStore_not_mem hm (by simpa using hmem)
  case storeWF =>
    intro k eid h'
    simp only [lookupStore] at h'
    by_cases hk : k = τ.key
    · rw [if_pos hk] at h'
      injection h' with h2
      subst h2
      exact ⟨newEntry τ.key, getElem?_append_len _ _, hk.symm⟩
    · rw [if_neg hk] at h'
      obtain ⟨e, he, hurl⟩ := hi.storeWF k eid h'
      exact ⟨e, by rw [getElem?_append_lt (getElem?_lt he)]; exact he, hurl⟩
  case workerReq => exact hi.workerReq
  case callsWF =>
    intro i c hcall
    rcases append_cases hcall with ⟨hEq, hx⟩ | ⟨hlt, hold⟩
    · subst hx
      refine ⟨by simp [lookupStore], ?_⟩
      exact ⟨{ τ with pc := .awaitResp }, getElem?_set_self tlen, rfl⟩
    · obtain ⟨hlk, τ₂, hτ₂, hkey⟩ := hi.callsWF i c hold
      refine ⟨lookup_cons_of_ne_none hm hlk, ?_⟩
      by_cases htt : c.target = t
      · rw [htt] at hτ₂ ⊢
        rw [ht] at hτ₂
        cases Option.some.inj hτ₂
        exact ⟨{ τ with pc := .awaitResp }, getElem?_set_self tlen, hkey⟩
      · exact ⟨τ₂, by rw [getElem?_set_ne fun hh => htt hh.symm]; exact hτ₂, hkey⟩
  case callUnique =>
    intro i j c c' h1 h2 hee
    rcases append_cases h1 with ⟨hEq1, hx1⟩ | ⟨hlt1, hold1⟩ <;>
      rcases append_cases h2 with ⟨hEq2, hx2⟩ | ⟨hlt2, hold2⟩
    · rw [hEq1, hEq2]
    · subst hx1
      have := hcl j c' hold2
      rw [← hee] at this
      exact absurd this (Nat.lt_irrefl _)
    · subst hx2
      have := hcl i c hold1
      rw [hee] at this
      exact absurd this (Nat.lt_irrefl _)
    · exact hi.callUnique i j c c' hold1 hold2 hee
  case callStageRun =>
    intro i c e hcall hent hpc'
    rcases append_cases hcall with ⟨hEq, hx⟩ | ⟨hlt, hold⟩
    · subst hx
      rw [getElem?_append_len] at hent
      cases Option.some.inj hent
      exact ⟨rfl, rfl⟩
    · have := hcl i c hold
      rw [getElem?_append_lt this] at hent
      exact hi.callStageRun i c e hold hent hpc'
  case callStageClose =>
    intro i c e hcall hent hpc'
    rcases append_cases hcall with ⟨hEq, hx⟩ | ⟨hlt, hold⟩
    · subst hx; cases hpc'
    · have := hcl i c hold
      rw [getElem?_append_lt this] at hent
      exact hi.callStageClose i c e hold hent hpc'
  case callStageSend =>
    intro i c e hcall hent hpc'
    rcases append_cases hcall with ⟨hEq, hx⟩ | ⟨hlt, hold⟩
    · subst hx
      rcases hpc' with h | h <;> cases h
    · have := hcl i c hold
      rw [getElem?_append_lt this] at hent
      exact hi.callStageSend i c e hold hent hpc'
  case delsWF =>
    intro i d hd
    obtain ⟨e, he, hlk, ⟨τ₂, hτ₂, hkey⟩, hsend⟩ := hi.delsWF i d hd
    refine ⟨e, by rw [getElem?_append_lt (getElem?_lt he)]; exact he,
      lookup_cons_of_ne_none hm hlk, ?_, hsend⟩
    by_cases htt : d.target = t
    · rw [htt] at hτ₂ ⊢
      rw [ht] at hτ₂
      cases Option.some.inj hτ₂
      exact ⟨{ τ with pc := .awaitResp }, getElem?_set_self tlen, hkey⟩
    · exact ⟨τ₂, by rw [getElem?_set_ne fun hh => htt hh.symm]; exact hτ₂, hkey⟩
  case readyWritten =>
    intro eid e h' hrd
    rcases append_cases h' with ⟨hEq, hx⟩ | ⟨hlt, hold⟩
    · subst hx; simp [newEntry] at hrd
    · exact hi.readyWritten eid e hold hrd
  case writtenVal =>
    intro eid e h' hw
    rcases append_cases h' with ⟨hEq, hx⟩ | ⟨hlt, hold⟩
    · subst hx; simp [newEntry] at hw
    · exact hi.writtenVal eid e hold hw
  case logCount =>
    intro k
    rw [hi.logCount k]
    by_cases hk : k = τ.key
    · subst hk
      have hc : lookupStore ((τ.key, s.entries.length) :: s.store) τ.key =
          some s.entries.length := by simp [lookupStore]
      rw [fetchWeight_none hm,
        fetchWeight_some hc (getElem?_append_len s.entries (newEntry τ.key))]
      simp [newEntry]
    · have hc : lookupStore ((τ.key, s.entries.length) :: s.store) k =
          lookupStore s.store k := by simp [lookupStore, hk]
      rcases hl2 : lookupStore s.store k with _ | eid
      · rw [fetchWeight_none hl2, fetchWeight_none (hc.trans hl2)]
      · obtain ⟨e, he, _⟩ := hi.storeWF k eid hl2
        rw [fetchWeight_some hl2 he, fetchWeight_some (hc.trans hl2)
          (by rw [getElem?_append_lt (getElem?_lt he)]; exact he)]
  case doneFact =>
    intro t' τ' r ht' hd
    rcases set_cases ht' with ⟨hEq, hτ, _⟩ | ⟨hne, hold⟩
    · subst hτ; simp at hd
    · obtain ⟨eid, e, hlk, he, hrd, hres⟩ := hi.doneFact t' τ' r hold hd
      exact ⟨eid, e, lookup_cons_of_ne_none hm hlk,
        by rw [getElem?_append_lt (getElem?_lt he)]; exact he, hrd, hres⟩

theorem CInv_serveHit {s : CState} {t : Nat} {τ : GetTask} {eid : Nat}
    (hi : CInv s) (ht : s.gets[t]? = some τ) (hpc : τ.pc = .sendReq)
    (hh : lookupStore s.store τ.key = some eid) :
    CInv { s with dels := s.dels ++
                    [{ eid := eid, target := t, pc := .waitReady }],
                  gets := s.gets.set t { τ with pc := .awaitResp } } := by
  have tlen : t < s.gets.length := getElem?_lt ht
  obtain ⟨eH, heH, hurlH⟩ := hi.storeWF τ.key eid hh
  constructor
  case storeKeys => exact hi.storeKeys
  case storeWF => exact hi.storeWF
  case workerReq => exact hi.workerReq
  case callsWF =>
    intro i c hcall
    obtain ⟨hlk, τ₂, hτ₂, hkey⟩ := hi.callsWF i c hcall
    refine ⟨hlk, ?_⟩
    by_cases htt : c.target = t
    · rw [htt] at hτ₂ ⊢
      rw [ht] at hτ₂
      cases Option.some.inj hτ₂
      exact ⟨{ τ with pc := .awaitResp }, getElem?_set_self tlen, hkey⟩
    · exact ⟨τ₂, by rw [getElem?_set_ne fun hh2 => htt hh2.symm]; exact hτ₂, hkey⟩
  case callUnique => exact hi.callUnique
  case callStageRun => exact hi.callStageRun
  case callStageClose => exact hi.callStageClose
  case callStageSend => exact hi.callStageSend
  case delsWF =>
    intro i d hd
    rcases append_cases hd with ⟨hEq, hx⟩ | ⟨hlt, hold⟩
    · subst hx
      refine ⟨eH, heH, by rw [hurlH]; exact hh, ?_, by intro hcon; cases hcon⟩
      refine ⟨{ τ with pc := .awaitResp }, getElem?_set_self tlen, ?_⟩
      rw [hurlH]
    · obtain ⟨e, he, hlk, ⟨τ₂, hτ₂, hkey⟩, hsend⟩ := hi.delsWF i d hold
      refine ⟨e, he, hlk, ?_, hsend⟩
      by_cases htt : d.target = t
      · rw [htt] at hτ₂ ⊢
        rw [ht] at hτ₂
        cases Option.some.inj hτ₂
        exact ⟨{ τ with pc := .awaitResp }, getElem?_set_self tlen, hkey⟩
      · exact ⟨τ₂, by rw [getElem?_set_ne fun hh2 => htt hh2.symm]; exact hτ₂, hkey⟩
  case readyWritten => exact hi.readyWritten
  case writtenVal => exact hi.writtenVal
  case logCount => exact hi.logCount
  case doneFact =>
    intro t' τ' r ht' hd
    rcases set_cases ht' with ⟨hEq, hτ, _⟩ | ⟨hne, hold⟩
    · subst hτ; simp at hd
    · exact hi.doneFact t' τ' r hold hd

theorem CInv_workerExit {s : CState} (hi : CInv s) :
    CInv { s with workerRunning := false, reqClosed := true } := by
  constructor
  case storeKeys => exact hi.storeKeys
  case storeWF => exact hi.storeWF
  case workerReq => rfl
  case callsWF => exact hi.callsWF
  case callUnique => exact hi.callUnique
  case callStageRun => exact hi.callStageRun
  case callStageClose => exact hi.callStageClose
  case callStageSend => exact hi.callStageSend
  case delsWF => exact hi.delsWF
  case readyWritten => exact hi.readyWritten
  case writtenVal => exact hi.writtenVal
  case logCount => exact hi.logCount
  case doneFact => exact hi.doneFact

theorem CInv_sendReqClosed {s : CState} {t : Nat} {τ : GetTask}
    (hi : CInv s) (ht : s.gets[t]? = some τ) (hpc : τ.pc = .sendReq) :
    CInv { s with gets := s.gets.set t { τ with pc := .crashed },
                  panicked := true } := by
  have tlen : t < s.gets.length := getElem?_lt ht
  constructor
  case storeKeys => exact hi.storeKeys
  case storeWF => exact hi.storeWF
  case workerReq => exact hi.workerReq
  case callsWF =>
    intro i c hcall
    obtain ⟨hlk, τ₂, hτ₂, hkey⟩ := hi.callsWF i c hcall
    refine ⟨hlk, ?_⟩
    by_cases htt : c.target = t
    · rw [htt] at hτ₂ ⊢
      rw [ht] at hτ₂
      cases Option.some.inj hτ₂
      exact ⟨{ τ with pc := .crashed }, getElem?_set_self tlen, hkey⟩
    · exact ⟨τ₂, by rw [getElem?_set_ne fun hh2 => htt hh2.symm]; exact hτ₂, hkey⟩
  case callUnique => exact hi.callUnique
  case callStageRun => exact hi.callStageRun
  case callStageClose => exact hi.callStageClose
  case callStageSend => exact hi.callStageSend
  case delsWF =>
    intro i d hd
    obtain ⟨e, he, hlk, ⟨τ₂, hτ₂, hkey⟩, hsend⟩ := hi.delsWF i d hd
    refine ⟨e, he, hlk, ?_, hsend⟩
    by_cases htt : d.target = t
    · rw [htt] at hτ₂ ⊢
      rw [ht] at hτ₂
      cases Option.some.inj hτ₂
      exact ⟨{ τ with pc := .crashed }, getElem?_set_self tlen, hkey⟩
    · exact ⟨τ₂, by rw [getElem?_set_ne fun hh2 => htt hh2.symm]; exact hτ₂, hkey⟩
  case readyWritten => exact hi.readyWritten
  case writtenVal => exact hi.writtenVal
  case logCount => exact hi.logCount
  case doneFact =>
    intro t' τ' r ht' hd
    rcases set_cases ht' with ⟨hEq, hτ, _⟩ | ⟨hne, hold⟩
    · subst hτ; simp at hd
    · exact hi.doneFact t' τ' r hold hd

theorem CInv_stopTrigger {s : CState} (hi : CInv s) :
    CInv { s with stopClosed := true } := by
  constructor
  case storeKeys => exact hi.storeKeys
  case storeWF => exact hi.storeWF
  case workerReq => exact hi.workerReq
  case callsWF => exact hi.callsWF
  case callUnique => exact hi.callUnique
  case callStageRun => exact hi.callStageRun
  case callStageClose => exact hi.callStageClose
  case callStageSend => exact hi.callStageSend
  case delsWF => exact hi.delsWF
  case readyWritten => exact hi.readyWritten
  case writtenVal => exact hi.writtenVal
  case logCount => exact hi.logCount
  case doneFact => exact hi.doneFact

theorem CInv_panicOnly {s : CState} (hi : CInv s) :
    CInv { s with panicked := true } := by
  constructor
  case storeKeys => exact hi.storeKeys
  case storeWF => exact hi.storeWF
  case workerReq => exact hi.workerReq
  case callsWF => exact hi.callsWF
  case callUnique => exact hi.callUnique
  case callStageRun => exact hi.callStageRun
  case callStageClose => exact hi.callStageClose
  case callStageSend => exact hi.callStageSend
  case delsWF => exact hi.delsWF
  case readyWritten => exact hi.readyWritten
  case writtenVal => exact hi.writtenVal
  case logCount => exact hi.logCount
  case doneFact => exact hi.doneFact

theorem CInv_callRun {s : CState} {i : Nat} {c : CallTask} {e : entry}
    (hi : CInv s) (hic : s.calls[i]? = some c) (hpc : c.pc = .run)
    (he : s.entries[c.eid]? = some e) :
    CInv { s with entries := s.entries.set c.eid
                    { e with res := { e.res with value := (s.fn c.key).1,
                                                 err := (s.fn c.key).2 },
                             written := true },
                  fetchLog := c.key :: s.fetchLog,
                  calls := s.calls.set i { c with pc := .closingCh } } := by
  have ilen : i < s.calls.length := getElem?_lt hic
  have elen : c.eid < s.entries.length := getElem?_lt he
  obtain ⟨hlk, τ₂, hτ₂, hkey⟩ := hi.callsWF i c hic
  have hwr : e.written = false ∧ e.ready = false :=
    hi.callStageRun i c e hic he hpc
  have hurl : e.res.url = c.key := by
    obtain ⟨e₁, he₁, hurl₁⟩ := hi.storeWF c.key c.eid hlk
    rw [he] at he₁
    cases Option.some.inj he₁
    exact hurl₁
  constructor
  case storeKeys => exact hi.storeKeys
  case storeWF =>
    intro k eid' h'
    obtain ⟨e', he', hurl'⟩ := hi.storeWF k eid' h'
    by_cases heq : eid' = c.eid
    · subst heq
      rw [he] at he'
      cases Option.some.inj he'
      exact ⟨_, getElem?_set_self elen, hurl'⟩
    · exact ⟨e', by rw [getElem?_set_ne fun hh => heq hh.symm]; exact he', hurl'⟩
  case workerReq => exact hi.workerReq
  case callsWF =>
    intro i' c' hcall'
    rcases set_cases hcall' with ⟨hEq, hx, _⟩ | ⟨hne, hold⟩
    · subst hx
      exact ⟨hlk, τ₂, hτ₂, hkey⟩
    · exact hi.callsWF i' c' hold
  case callUnique =>
    intro i1 i2 c1 c2 h1 h2 hee
    rcases set_cases h1 with ⟨hEq1, hx1, _⟩ | ⟨hne1, hold1⟩ <;>
      rcases set_cases h2 with ⟨hEq2, hx2, _⟩ | ⟨hne2, hold2⟩
    · rw [hEq1, hEq2]
    · subst hx1
      rw [hEq1]
      exact hi.callUnique i i2 c c2 hic hold2 hee
    · subst hx2
      rw [hEq2]
      exact hi.callUnique i1 i c1 c hold1 hic hee
    · exact hi.callUnique i1 i2 c1 c2 hold1 hold2 hee
  case callStageRun =>
    intro i' c' e' hcall' hent' hpc'
    rcases set_cases hcall' with ⟨hEq, hx, _⟩ | ⟨hne, hold⟩
    · subst hx; cases hpc'
    · by_cases heq : c'.eid = c.eid
      · exact absurd (hi.callUnique i' i c' c hold hic heq) hne
      · rw [getElem?_set_ne fun hh => heq hh.symm] at hent'
        exact hi.callStageRun i' c' e' hold hent' hpc'
  case callStageClose =>
    intro i' c' e' hcall' hent' hpc'
    rcases set_cases hcall' with ⟨hEq, hx, _⟩ | ⟨hne, hold⟩
    · subst hx
      rw [getElem?_set_self elen] at hent'
      cases Option.some.inj hent'
      exact ⟨rfl, hwr.2⟩
    · by_cases heq : c'.eid = c.eid
      · exact absurd (hi.callUnique i' i c' c hold hic heq) hne
      · rw [getElem?_set_ne fun hh => heq hh.symm] at hent'
        exact hi.callStageClose i' c' e' hold hent' hpc'
  case callStageSend =>
    intro i' c' e' hcall' hent' hpc'
    rcases set_cases hcall' with ⟨hEq, hx, _⟩ | ⟨hne, hold⟩
    · subst hx
      rcases hpc' with h | h <;> cases h
    · by_cases heq : c'.eid = c.eid
      · exact absurd (hi.callUnique i' i c' c hold hic heq) hne
      · rw [getElem?_set_ne fun hh => heq hh.symm] at hent'
        exact hi.callStageSend i' c' e' hold hent' hpc'
  case delsWF =>
    intro i' d hd
    obtain ⟨e₂, he₂, hlk₂, hτ, hsend⟩ := hi.delsWF i' d hd
    by_cases heq : d.eid = c.eid
    · rw [heq] at he₂ hlk₂ ⊢
      rw [he] at he₂
      cases Option.some.inj he₂
      exact ⟨_, getElem?_set_self elen, hlk₂, hτ, hsend⟩
    · exact ⟨e₂, by rw [getElem?_set_ne fun hh => heq hh.symm]; exact he₂,
        hlk₂, hτ, hsend⟩
  case readyWritten =>
    intro eid' e' h' hrd'
    rcases set_cases h' with ⟨hEq, hx, _⟩ | ⟨hne, hold⟩
    · subst hx; rfl
    · exact hi.readyWritten eid' e' hold hrd'
  case writtenVal =>
    intro eid' e' h' hw'
    rcases set_cases h' with ⟨hEq, hx, _⟩ | ⟨hne, hold⟩
    · subst hx
      refine ⟨?_, ?_⟩ <;> simp only [] <;> rw [hurl]
    · exact hi.writtenVal eid' e' hold hw'
  case logCount =>
    intro k
    rw [countKey_cons]
    by_cases hk : c.key = k
    · subst hk
      rw [if_pos rfl, hi.logCount c.key, fetchWeight_some hlk he,
        fetchWeight_some hlk (getElem?_set_self elen)]
      rw [hwr.1]
      simp
    · rw [if_neg hk, hi.logCount k]
      rcases hl2 : lookupStore s.store k with _ | eid''
      · rw [fetchWeight_none hl2, fetchWeight_none hl2]
      · obtain ⟨e₂, he₂, hurl₂⟩ := hi.storeWF k eid'' hl2
        have heq : eid'' ≠ c.eid := by
          intro hh
          subst hh
          rw [he] at he₂
          cases Option.some.inj he₂
          exact hk (hurl.symm.trans hurl₂)
        rw [fetchWeight_some hl2 he₂, fetchWeight_some hl2
          (by rw [getElem?_set_ne fun hh => heq hh.symm]; exact he₂)]
        simp
  case doneFact =>
    intro t' τ' r ht' hd
    obtain ⟨eid₂, e₂, hlk₂, he₂, hrd₂, hres₂⟩ := hi.doneFact t' τ' r ht' hd
    have heq : eid₂ ≠ c.eid := by
      intro hh
      subst hh
      rw [he] at he₂
      cases Option.some.inj he₂
      rw [hwr.2] at hrd₂
      cases hrd₂
    exact ⟨eid₂, e₂, hlk₂,
      by rw [getElem?_set_ne fun hh => heq hh.symm]; exact he₂, hrd₂, hres₂⟩

theorem CInv_callClose {s : CState} {i : Nat} {c : CallTask} {e : entry}
    (hi : CInv s) (hic : s.calls[i]? = some c) (hpc : c.pc = .closingCh)
    (he : s.entries[c.eid]? = some e) (hr : e.ready = false) :
    CInv { s with entries := s.entries.set c.eid { e with ready := true },
                  calls := s.calls.set i { c with pc := .sending } } := by
  have ilen : i < s.calls.length := getElem?_lt hic
  have elen : c.eid < s.entries.length := getElem?_lt he
  obtain ⟨hlk, τ₂, hτ₂, hkey⟩ := hi.callsWF i c hic
  have hw : e.written = true := (hi.callStageClose i c e hic he hpc).1
  constructor
  case storeKeys => exact hi.storeKeys
  case storeWF =>
    intro k eid' h'
    obtain ⟨e', he', hurl'⟩ := hi.storeWF k eid' h'
    by_cases heq : eid' = c.eid
    · subst heq
      rw [he] at he'
      cases Option.some.inj he'
      exact ⟨_, getElem?_set_self elen, hurl'⟩
    · exact ⟨e', by rw [getElem?_set_ne fun hh => heq hh.symm]; exact he', hurl'⟩
  case workerReq => exact hi.workerReq
  case callsWF =>
    intro i' c' hcall'
    rcases set_cases hcall' with ⟨hEq, hx, _⟩ | ⟨hne, hold⟩
    · subst hx
      exact ⟨hlk, τ₂, hτ₂, hkey⟩
    · exact hi.callsWF i' c' hold
  case callUnique =>
    intro i1 i2 c1 c2 h1 h2 hee
    rcases set_cases h1 with ⟨hEq1, hx1, _⟩ | ⟨hne1, hold1⟩ <;>
      rcases set_cases h2 with ⟨hEq2, hx2, _⟩ | ⟨hne2, hold2⟩
    · rw [hEq1, hEq2]
    · subst hx1
      rw [hEq1]
      exact hi.callUnique i i2 c c2 hic hold2 hee
    · subst hx2
      rw [hEq2]
      exact hi.callUnique i1 i c1 c hold1 hic hee
    · exact hi.callUnique i1 i2 c1 c2 hold1 hold2 hee
  case callStageRun =>
    intro i' c' e' hcall' hent' hpc'
    rcases set_cases hcall' with ⟨hEq, hx, _⟩ | ⟨hne, hold⟩
    · subst hx; cases hpc'
    · by_cases heq : c'.eid = c.eid
      · exact absurd (hi.callUnique i' i c' c hold hic heq) hne
      · rw [getElem?_set_ne fun hh => heq hh.symm] at hent'
        exact hi.callStageRun i' c' e' hold hent' hpc'
  case callStageClose =>
    intro i' c' e' hcall' hent' hpc'
    rcases set_cases hcall' with ⟨hEq, hx, _⟩ | ⟨hne, hold⟩
    · subst hx; cases hpc'
    · by_cases heq : c'.eid = c.eid
      · exact absurd (hi.callUnique i' i c' c hold hic heq) hne
      · rw [getElem?_set_ne fun hh => heq hh.symm] at hent'
        exact hi.callStageClose i' c' e' hold hent' hpc'
  case callStageSend =>
    intro i' c' e' hcall' hent' hpc'
    rcases set_cases hcall' with ⟨hEq, hx, _⟩ | ⟨hne, hold⟩
    · subst hx
      rw [getElem?_set_self elen] at hent'
      cases Option.some.inj hent'
      rfl
    · by_cases heq : c'.eid = c.eid
      · exact absurd (hi.callUnique i' i c' c hold hic heq) hne
      · rw [getElem?_set_ne fun hh => heq hh.symm] at hent'
        exact hi.callStageSend i' c' e' hold hent' hpc'
  case delsWF =>
    intro i' d hd
    obtain ⟨e₂, he₂, hlk₂, hτ, hsend⟩ := hi.delsWF i' d hd
    by_cases heq : d.eid = c.eid
    · rw [heq] at he₂ hlk₂ ⊢
      rw [he] at he₂
      cases Option.some.inj he₂
      exact ⟨_, getElem?_set_self elen, hlk₂, hτ, fun _ => rfl⟩
    · exact ⟨e₂, by rw [getElem?_set_ne fun hh => heq hh.symm]; exact he₂,
        hlk₂, hτ, hsend⟩
  case readyWritten =>
    intro eid' e' h' hrd'
    rcases set_cases h' with ⟨hEq, hx, _⟩ | ⟨hne, hold⟩
    · subst hx; exact hw
    · exact hi.readyWritten eid' e' hold hrd'
  case writtenVal =>
    intro eid' e' h' hw'
    rcases set_cases h' with ⟨hEq, hx, _⟩ | ⟨hne, hold⟩
    · subst hx
      exact hi.writtenVal c.eid e he hw
    · exact hi.writtenVal eid' e' hold hw'
  case logCount =>
    intro k
    rw [hi.logCount k]
    rcases hl2 : lookupStore s.store k with _ | eid''
    · rw [fetchWeight_none hl2, fetchWeight_none hl2]
    · obtain ⟨e₂, he₂, hurl₂⟩ := hi.storeWF k eid'' hl2
      by_cases heq : eid'' = c.eid
      · subst heq
        rw [he] at he₂
        cases Option.some.inj he₂
        rw [fetchWeight_some hl2 he, fetchWeight_some hl2 (getElem?_set_self elen)]
      · rw [fetchWeight_some hl2 he₂, fetchWeight_some hl2
          (by rw [getElem?_set_ne fun hh => heq hh.symm]; exact he₂)]
  case doneFact =>
    intro t' τ' r ht' hd
    obtain ⟨eid₂, e₂, hlk₂, he₂, hrd₂, hres₂⟩ := hi.doneFact t' τ' r ht' hd
    by_cases heq : eid₂ = c.eid
    · subst heq
      rw [he] at he₂
      cases Option.some.inj he₂
      exact ⟨c.eid, { e with ready := true }, hlk₂, getElem?_set_self elen,
        rfl, hres₂⟩
    · exact ⟨eid₂, e₂, hlk₂,
        by rw [getElem?_set_ne fun hh => heq hh.symm]; exact he₂, hrd₂, hres₂⟩

theorem CInv_callCloseAgain_absurd {s : CState} {i : Nat} {c : CallTask}
    {e : entry} (hi : CInv s) (hic : s.calls[i]? = some c)
    (hpc : c.pc = .closingCh) (he : s.entries[c.eid]? = some e)
    (hr : e.ready = true) : False := by
  have := (hi.callStageClose i c e hic he hpc).2
  rw [this] at hr
  cases hr

theorem CInv_callSend {s : CState} {i : Nat} {c : CallTask} {e : entry}
    {τ : GetTask} (hi : CInv s) (hic : s.calls[i]? = some c)
    (hpc : c.pc = .sending) (he : s.entries[c.eid]? = some e)
    (ht : s.gets[c.target]? = some τ) (hw : τ.pc = .awaitResp) :
    CInv { s with gets := s.gets.set c.target { τ with pc := .done e.res },
                  calls := s.calls.set i { c with pc := .finished } } := by
  have ilen : i < s.calls.length := getElem?_lt hic
  have tlen : c.target < s.gets.length := getElem?_lt ht
  obtain ⟨hlk, τ₂, hτ₂, hkey⟩ := hi.callsWF i c hic
  rw [ht] at hτ₂
  cases Option.some.inj hτ₂
  have hready : e.ready = true :=
    hi.callStageSend i c e hic he (Or.inl hpc)
  constructor
  case storeKeys => exact hi.storeKeys
  case storeWF => exact hi.storeWF
  case workerReq => exact hi.workerReq
  case callsWF =>
    intro i' c' hcall'
    rcases set_cases hcall' with ⟨hEq, hx, _⟩ | ⟨hne, hold⟩
    · subst hx
      refine ⟨hlk, ?_⟩
      exact ⟨{ τ with pc := .done e.res }, getElem?_set_self tlen, hkey⟩
    · obtain ⟨hlk', τ₃, hτ₃, hkey'⟩ := hi.callsWF i' c' hold
      refine ⟨hlk', ?_⟩
      by_cases htt : c'.target = c.target
      · rw [htt] at hτ₃ ⊢
        rw [ht] at hτ₃
        cases Option.some.inj hτ₃
        exact ⟨{ τ with pc := .done e.res }, getElem?_set_self tlen, hkey'⟩
      · exact ⟨τ₃, by rw [getElem?_set_ne fun hh => htt hh.symm]; exact hτ₃, hkey'⟩
  case callUnique =>
    intro i1 i2 c1 c2 h1 h2 hee
    rcases set_cases h1 with ⟨hEq1, hx1, _⟩ | ⟨hne1, hold1⟩ <;>
      rcases set_cases h2 with ⟨hEq2, hx2, _⟩ | ⟨hne2, hold2⟩
    · rw [hEq1, hEq2]
    · subst hx1
      rw [hEq1]
      exact hi.callUnique i i2 c c2 hic hold2 hee
    · subst hx2
      rw [hEq2]
      exact hi.callUnique i1 i c1 c hold1 hic hee
    · exact hi.callUnique i1 i2 c1 c2 hold1 hold2 hee
  case callStageRun =>
    intro i' c' e' hcall' hent' hpc'
    rcases set_cases hcall' with ⟨hEq, hx, _⟩ | ⟨hne, hold⟩
    · subst hx; cases hpc'
    · exact hi.callStageRun i' c' e' hold hent' hpc'
  case callStageClose =>
    intro i' c' e' hcall' hent' hpc'
    rcases set_cases hcall' with ⟨hEq, hx, _⟩ | ⟨hne, hold⟩
    · subst hx; cases hpc'
    · exact hi.callStageClose i' c' e' hold hent' hpc'
  case callStageSend =>
    intro i' c' e' hcall' hent' hpc'
    rcases set_cases hcall' with ⟨hEq, hx, _⟩ | ⟨hne, hold⟩
    · subst hx
      have hent2 : s.entries[c.eid]? = some e' := hent'
      rw [he] at hent2
      cases Option.some.inj hent2
      exact hready
    · exact hi.callStageSend i' c' e' hold hent' hpc'
  case delsWF =>
    intro i' d hd
    obtain ⟨e₂, he₂, hlk₂, ⟨τ₃, hτ₃, hkey'⟩, hsend⟩ := hi.delsWF i' d hd
    refine ⟨e₂, he₂, hlk₂, ?_, hsend⟩
    by_cases htt : d.target = c.target
    · rw [htt] at hτ₃ ⊢
      rw [ht] at hτ₃
      cases Option.some.inj hτ₃
      exact ⟨{ τ with pc := .done e.res }, getElem?_set_self tlen, hkey'⟩
    · exact ⟨τ₃, by rw [getElem?_set_ne fun hh => htt hh.symm]; exact hτ₃, hkey'⟩
  case readyWritten => exact hi.readyWritten
  case writtenVal => exact hi.writtenVal
  case logCount => exact hi.logCount
  case doneFact =>
    intro t' τ' r ht' hd
    rcases set_cases ht' with ⟨hEq, hτ, _⟩ | ⟨hne, hold⟩
    · subst hτ
      simp only [] at hd
      injection hd with h2
      refine ⟨c.eid, e, ?_, he, hready, h2.symm⟩
      have : τ.key = c.key := hkey
      rw [this]
      exact hlk
    · exact hi.doneFact t' τ' r hold hd

theorem CInv_delWait {s : CState} {i : Nat} {d : DelTask} {e : entry}
    (hi : CInv s) (hid : s.dels[i]? = some d) (hpc : d.pc = .waitReady)
    (he : s.entries[d.eid]? = some e) (hr : e.ready = true) :
    CInv { s with dels := s.dels.set i { d with pc := .sending } } := by
  have ilen : i < s.dels.length := getElem?_lt hid
  constructor
  case storeKeys => exact hi.storeKeys
  case storeWF => exact hi.storeWF
  case workerReq => exact hi.workerReq
  case callsWF => exact hi.callsWF
  case callUnique => exact hi.callUnique
  case callStageRun => exact hi.callStageRun
  case callStageClose => exact hi.callStageClose
  case callStageSend => exact hi.callStageSend
  case delsWF =>
    intro i' d' hd'
    rcases set_cases hd' with ⟨hEq, hx, _⟩ | ⟨hne, hold⟩
    · subst hx
      obtain ⟨e₂, he₂, hlk₂, hτ, _⟩ := hi.delsWF i d hid
      rw [he] at he₂
      cases Option.some.inj he₂
      exact ⟨e, he, hlk₂, hτ, fun _ => hr⟩
    · exact hi.delsWF i' d' hold
  case readyWritten => exact hi.readyWritten
  case writtenVal => exact hi.writtenVal
  case logCount => exact hi.logCount
  case doneFact => exact hi.doneFact

theorem CInv_delSend {s : CState} {i : Nat} {d : DelTask} {e : entry}
    {τ : GetTask} (hi : CInv s) (hid : s.dels[i]? = some d)
    (hpc : d.pc = .sending) (he : s.entries[d.eid]? = some e)
    (ht : s.gets[d.target]? = some τ) (hw : τ.pc = .awaitResp) :
    CInv { s with gets := s.gets.set d.target { τ with pc := .done e.res },
                  dels := s.dels.set i { d with pc := .finished } } := by
  have ilen : i < s.dels.length := getElem?_lt hid
  have tlen : d.target < s.gets.length := getElem?_lt ht
  obtain ⟨e₂, he₂, hlk₂, ⟨τ₂, hτ₂, hkey⟩, hsend⟩ := hi.delsWF i d hid
  rw [he] at he₂
  cases Option.some.inj he₂
  rw [ht] at hτ₂
  cases Option.some.inj hτ₂
  have hready : e.ready = true := hsend hpc
  constructor
  case storeKeys => exact hi.storeKeys
  case storeWF => exact hi.storeWF
  case workerReq => exact hi.workerReq
  case callsWF =>
    intro i' c' hcall'
    obtain ⟨hlk', τ₃, hτ₃, hkey'⟩ := hi.callsWF i' c' hcall'
    refine ⟨hlk', ?_⟩
    by_cases htt : c'.target = d.target
    · rw [htt] at hτ₃ ⊢
      rw [ht] at hτ₃
      cases Option.some.inj hτ₃
      exact ⟨{ τ with pc := .done e.res }, getElem?_set_self tlen, hkey'⟩
    · exact ⟨τ₃, by rw [getElem?_set_ne fun hh => htt hh.symm]; exact hτ₃, hkey'⟩
  case callUnique => exact hi.callUnique
  case callStageRun => exact hi.callStageRun
  case callStageClose => exact hi.callStageClose
  case callStageSend => exact hi.callStageSend
  case delsWF =>
    intro i' d' hd'
    rcases set_cases hd' with ⟨hEq, hx, _⟩ | ⟨hne, hold⟩
    · subst hx
      refine ⟨e, he, hlk₂, ?_, by intro hcon; cases hcon⟩
      exact ⟨{ τ with pc := .done e.res }, getElem?_set_self tlen, hkey⟩
    · obtain ⟨e₃, he₃, hlk₃, ⟨τ₃, hτ₃, hkey'⟩, hsend'⟩ := hi.delsWF i' d' hold
      refine ⟨e₃, he₃, hlk₃, ?_, hsend'⟩
      by_cases htt : d'.target = d.target
      · rw [htt] at hτ₃ ⊢
        rw [ht] at hτ₃
        cases Option.some.inj hτ₃
        exact ⟨{ τ with pc := .done e.res }, getElem?_set_self tlen, hkey'⟩
      · exact ⟨τ₃, by rw [getElem?_set_ne fun hh => htt hh.symm]; exact hτ₃, hkey'⟩
  case readyWritten => exact hi.readyWritten
  case writtenVal => exact hi.writtenVal
  case logCount => exact hi.logCount
  case doneFact =>
    intro t' τ' r ht' hd'
    rcases set_cases ht' with ⟨hEq, hτ, _⟩ | ⟨hne, hold⟩
    · subst hτ
      simp only [] at hd'
      injection hd' with h2
      refine ⟨d.eid, e, ?_, he, hready, h2.symm⟩
      have : τ.key = e.res.url := hkey
      rw [this]
      exact hlk₂
    · exact hi.doneFact t' τ' r hold hd'

theorem CInv_step {s s' : CState} (hi : CInv s) (h : CStep s s') : CInv s' := by
  cases h with
  | serveMiss t τ hp hw hc ht hpc hm => exact CInv_serveMiss hi ht hpc hm
  | serveHit t τ eid hp hw hc ht hpc hh => exact CInv_serveHit hi ht hpc hh
  | workerExit hp hw hs => exact CInv_workerExit hi
  | sendReqClosed t τ hp hc ht hpc => exact CInv_sendReqClosed hi ht hpc
  | callRun i c e hp hic hpc he => exact CInv_callRun hi hic hpc he
  | callClose i c e hp hic hpc he hr => exact CInv_callClose hi hic hpc he hr
  | callCloseAgain i c e hp hic hpc he hr =>
      exact (CInv_callCloseAgain_absurd hi hic hpc he hr).elim
  | callSend i c e τ hp hic hpc he ht hw => exact CInv_callSend hi hic hpc he ht hw
  | delWait i d e hp hid hpc he hr => exact CInv_delWait hi hid hpc he hr
  | delSend i d e τ hp hid hpc he ht hw => exact CInv_delSend hi hid hpc he ht hw
  | stopTrigger hp hs => exact CInv_stopTrigger hi
  | stopTriggerAgain hp hs => exact CInv_panicOnly hi

theorem CReach_CInv {f : Func} {keys : List String} {s : CState}
    (h : CReach (NewCache f keys) s) : CInv s := by
  induction h with
  | refl => exact CInv_init f keys
  | tail hab hbc ih => exact CInv_step ih hbc

theorem CStep_fn {s s' : CState} (h : CStep s s') : s'.fn = s.fn := by
  cases h <;> rfl

theorem CReach_fn {s s' : CState} (h : CReach s s') : s'.fn = s.fn := by
  induction h with
  | refl => rfl
  | tail hab hbc ih => rw [CStep_fn hbc, ih]

theorem CStep_store_mono {s s' : CState} (h : CStep s s') {k : String}
    {eid : Nat} (hl : lookupStore s.store k = some eid) :
    lookupStore s'.store k = some eid := by
  cases h with
  | serveMiss t τ hp hw hc ht hpc hm => exact lookup_cons_of_ne_none hm hl
  | _ => exact hl

theorem CReach_store_mono {s s' : CState} (h : CReach s s') {k : String}
    {eid : Nat} (hl : lookupStore s.store k = some eid) :
    lookupStore s'.store k = some eid := by
  induction h with
  | refl => exact hl
  | tail hab hbc ih => exact CStep_store_mono hbc ih

/-! ## Concrete instances: the spec scenario fetcher and explicit runs -/

/-- The fetcher of the spec scenario: maps the key a to A and b to B. -/
def fnAB : Func := fun k =>
  if k = "a" then (some "A", none)
  else if k = "b" then (some "B", none)
  else (none, some "no value")

/-- A fetcher that always fails. -/
def fnBad : Func := fun _ => (none, some "boom")

def respA : response := { start := 0, url := "a", value := some "A", err := none }

def respB : response := { start := 0, url := "b", value := some "B", err := none }

def respBad : response :=
  { start := 0, url := "bad", value := none, err := some "boom" }

def entryA : entry := { res := respA, ready := true, written := true }

def entryB : entry := { res := respB, ready := true, written := true }

def entryBad : entry := { res := respBad, ready := true, written := true }

/-- Final state of two concurrent mutex Get a calls, task 0 winning
entry creation and task 1 hitting. -/
def mFin2 : MState :=
  { fn := fnAB
    store := [("a", 0)]
    entries := [entryA]
    lock := none
    tasks := [{ key := "a", pc := .done respA }, { key := "a", pc := .done respA }]
    fetchLog := ["a"]
    panicked := false }

theorem mFin2_reach : MReach (NewMutexCache fnAB ["a", "a"]) mFin2 := by
  refine MReach_head (MStep.lockAcq _ 0 _ rfl rfl rfl rfl) ?_
  refine MReach_head (MStep.lookupMiss _ 0 _ rfl rfl rfl rfl rfl) ?_
  refine MReach_head (MStep.unlockMiss _ 0 _ 0 rfl rfl rfl rfl) ?_
  refine MReach_head (MStep.fetch _ 0 _ 0 _ rfl rfl rfl rfl) ?_
  refine MReach_head (MStep.closeRet _ 0 _ 0 _ rfl rfl rfl rfl rfl) ?_
  refine MReach_head (MStep.lockAcq _ 1 _ rfl rfl rfl rfl) ?_
  refine MReach_head (MStep.lookupHit _ 1 _ 0 rfl rfl rfl rfl rfl) ?_
  refine MReach_head (MStep.unlockHit _ 1 _ 0 rfl rfl rfl rfl) ?_
  refine MReach_head (MStep.waitRet _ 1 _ 0 _ rfl rfl rfl rfl rfl) ?_
  exact MReach_refl _

/-- State of the mutex strategy after task 0 of two Get a calls has
acquired the lock and nothing else has happened. -/
def mMid : MState :=
  { fn := fnAB
    store := []
    entries := []
    lock := some 0
    tasks := [{ key := "a", pc := .locked }, { key := "a", pc := .atLock }]
    fetchLog := []
    panicked := false }

theorem mMid_reach : MReach (NewMutexCache fnAB ["a", "a"]) mMid := by
  refine MReach_head (MStep.lockAcq _ 0 _ rfl rfl rfl rfl) ?_
  exact MReach_refl _

/-- State of the mutex strategy after task 0 of two Get a calls has
created and inserted the entry, still holding the lock. -/
def mMid2 : MState :=
  { fn := fnAB
    store := [("a", 0)]
    entries := [newEntry "a"]
    lock := some 0
    tasks := [{ key := "a", pc := .missUnlock 0 }, { key := "a", pc := .atLock }]
    fetchLog := []
    panicked := false }

theorem mMid2_reach : MReach (NewMutexCache fnAB ["a", "a"]) mMid2 := by
  refine MReach_head (MStep.lockAcq _ 0 _ rfl rfl rfl rfl) ?_
  refine MReach_head (MStep.lookupMiss _ 0 _ rfl rfl rfl rfl rfl) ?_
  exact MReach_refl _

/-- Final state of the sequential mutex run Get a, Get b, Get a. -/
def mFin3 : MState :=
  { fn := fnAB
    store := [("b", 1), ("a", 0)]
    entries := [entryA, entryB]
    lock := none
    tasks := [{ key := "a", pc := .done respA },
              { key := "b", pc := .done respB },
              { key := "a", pc := .done respA }]
    fetchLog := ["b", "a"]
    panicked := false }

theorem mFin3_reach : MReach (NewMutexCache fnAB ["a", "b", "a"]) mFin3 := by
  refine MReach_head (MStep.lockAcq _ 0 _ rfl rfl rfl rfl) ?_
  refine MReach_head (MStep.lookupMiss _ 0 _ rfl rfl rfl rfl rfl) ?_
  refine MReach_head (MStep.unlockMiss _ 0 _ 0 rfl rfl rfl rfl) ?_
  refine MReach_head (MStep.fetch _ 0 _ 0 _ rfl rfl rfl rfl) ?_
  refine MReach_head (MStep.closeRet _ 0 _ 0 _ rfl rfl rfl rfl rfl) ?_
  refine MReach_head (MStep.lockAcq _ 1 _ rfl rfl rfl rfl) ?_
  refine MReach_head (MStep.lookupMiss _ 1 _ rfl rfl rfl rfl rfl) ?_
  refine MReach_head (MStep.unlockMiss _ 1 _ 1 rfl rfl rfl rfl) ?_
  refine MReach_head (MStep.fetch _ 1 _ 1 _ rfl rfl rfl rfl) ?_
  refine MReach_head (MStep.closeRet _ 1 _ 1 _ rfl rfl rfl rfl rfl) ?_
  refine MReach_head (MStep.lockAcq _ 2 _ rfl rfl rfl rfl) ?_
  refine MReach_head (MStep.lookupHit _ 2 _ 0 rfl rfl rfl rfl rfl) ?_
  refine MReach_head (MStep.unlockHit _ 2 _ 0 rfl rfl rfl rfl) ?_
  refine MReach_head (MStep.waitRet _ 2 _ 0 _ rfl rfl rfl rfl rfl) ?_
  exact MReach_refl _

/-- Final state of two concurrent mutex Get bad calls against the
always-failing fetcher. -/
def mFinBad : MState :=
  { fn := fnBad
    store := [("bad", 0)]
    entries := [entryBad]
    lock := none
    tasks := [{ key := "bad", pc := .done respBad },
              { key := "bad", pc := .done respBad }]
    fetchLog := ["bad"]
    panicked := false }

theorem mFinBad_reach : MReach (NewMutexCache fnBad ["bad", "bad"]) mFinBad := by
  refine MReach_head (MStep.lockAcq _ 0 _ rfl rfl rfl rfl) ?_
  refine MReach_head (MStep.lookupMiss _ 0 _ rfl rfl rfl rfl rfl) ?_
  refine MReach_head (MStep.unlockMiss _ 0 _ 0 rfl rfl rfl rfl) ?_
  refine MReach_head (MStep.fetch _ 0 _ 0 _ rfl rfl rfl rfl) ?_
  refine MReach_head (MStep.closeRet _ 0 _ 0 _ rfl rfl rfl rfl rfl) ?_
  refine MReach_head (MStep.lockAcq _ 1 _ rfl rfl rfl rfl) ?_
  refine MReach_head (MStep.lookupHit _ 1 _ 0 rfl rfl rfl rfl rfl) ?_
  refine MReach_head (MStep.unlockHit _ 1 _ 0 rfl rfl rfl rfl) ?_
  refine MReach_head (MStep.waitRet _ 1 _ 0 _ rfl rfl rfl rfl rfl) ?_
  exact MReach_refl _

/-- Final state of two concurrent confinement Get a calls: the first
request was a miss handled by a call goroutine, the second a hit
handled by a deliver goroutine. -/
def cFin2 : CState :=
  { fn := fnAB
    store := [("a", 0)]
    entries := [entryA]
    workerRunning := true
    reqClosed := false
    stopClosed := false
    gets := [{ key := "a", pc := .done respA }, { key := "a", pc := .done respA }]
    calls := [{ eid := 0, key := "a", target := 0, pc := .finished }]
    dels := [{ eid := 0, target := 1, pc := .finished }]
    fetchLog := ["a"]
    panicked := false }

theorem cFin2_reach : CReach (NewCache fnAB ["a", "a"]) cFin2 := by
  refine CReach_head (CStep.serveMiss _ 0 _ rfl rfl rfl rfl rfl rfl) ?_
  refine CReach_head (CStep.serveHit _ 1 _ 0 rfl rfl rfl rfl rfl rfl) ?_
  refine CReach_head (CStep.callRun _ 0 _ _ rfl rfl rfl rfl) ?_
  refine CReach_head (CStep.callClose _ 0 _ _ rfl rfl rfl rfl rfl) ?_
  refine CReach_head (CStep.callSend _ 0 _ _ _ rfl rfl rfl rfl rfl rfl) ?_
  refine CReach_head (CStep.delWait _ 0 _ _ rfl rfl rfl rfl rfl) ?_
  refine CReach_head (CStep.delSend _ 0 _ _ _ rfl rfl rfl rfl rfl rfl) ?_
  exact CReach_refl _

/-- Final state of the sequential confinement run Get a, Get b, Get a. -/
def cFin3 : CState :=
  { fn := fnAB
    store := [("b", 1), ("a", 0)]
    entries := [entryA, entryB]
    workerRunning := true
    reqClosed := false
    stopClosed := false
    gets := [{ key := "a", pc := .done respA },
             { key := "b", pc := .done respB },
             { key := "a", pc := .done respA }]
    calls := [{ eid := 0, key := "a", target := 0, pc := .finished },
              { eid := 1, key := "b", target := 1, pc := .finished }]
    dels := [{ eid := 0, target := 2, pc := .finished }]
    fetchLog := ["b", "a"]
    panicked := false }

theorem cFin3_reach : CReach (NewCache fnAB ["a", "b", "a"]) cFin3 := by
  refine CReach_head (CStep.serveMiss _ 0 _ rfl rfl rfl rfl rfl rfl) ?_
  refine CReach_head (CStep.callRun _ 0 _ _ rfl rfl rfl rfl) ?_
  refine CReach_head (CStep.callClose _ 0 _ _ rfl rfl rfl rfl rfl) ?_
  refine CReach_head (CStep.callSend _ 0 _ _ _ rfl rfl rfl rfl rfl rfl) ?_
  refine CReach_head (CStep.serveMiss _ 1 _ rfl rfl rfl rfl rfl rfl) ?_
  refine CReach_head (CStep.callRun _ 1 _ _ rfl rfl rfl rfl) ?_
  refine CReach_head (CStep.callClose _ 1 _ _ rfl rfl rfl rfl rfl) ?_
  refine CReach_head (CStep.callSend _ 1 _ _ _ rfl rfl rfl rfl rfl rfl) ?_
  refine CReach_head (CStep.serveHit _ 2 _ 0 rfl rfl rfl rfl rfl rfl) ?_
  refine CReach_head (CStep.delWait _ 0 _ _ rfl rfl rfl rfl rfl) ?_
  refine CReach_head (CStep.delSend _ 0 _ _ _ rfl rfl rfl rfl rfl rfl) ?_
  exact CReach_refl _

/-- Final state of two concurrent confinement Get bad calls against
the always-failing fetcher. -/
def cFinBad : CState :=
  { fn := fnBad
    store := [("bad", 0)]
    entries := [entryBad]
    workerRunning := true
    reqClosed := false
    stopClosed := false
    gets := [{ key := "bad", pc := .done respBad },
             { key := "bad", pc := .done respBad }]
    calls := [{ eid := 0, key := "bad", target := 0, pc := .finished }]
    dels := [{ eid := 0, target := 1, pc := .finished }]
    fetchLog := ["bad"]
    panicked := false }

theorem cFinBad_reach : CReach (NewCache fnBad ["bad", "bad"]) cFinBad := by
  refine CReach_head (CStep.serveMiss _ 0 _ rfl rfl rfl rfl rfl rfl) ?_
  refine CReach_head (CStep.serveHit _ 1 _ 0 rfl rfl rfl rfl rfl rfl) ?_
  refine CReach_head (CStep.callRun _ 0 _ _ rfl rfl rfl rfl) ?_
  refine CReach_head (CStep.callClose _ 0 _ _ rfl rfl rfl rfl rfl) ?_
  refine CReach_head (CStep.callSend _ 0 _ _ _ rfl rfl rfl rfl rfl rfl) ?_
  refine CReach_head (CStep.delWait _ 0 _ _ rfl rfl rfl rfl rfl) ?_
  refine CReach_head (CStep.delSend _ 0 _ _ _ rfl rfl rfl rfl rfl rfl) ?_
  exact CReach_refl _

/-- Confinement state with one request already served (its fetch still
running) after the stop signal fired and the worker exited. -/
def cStop : CState :=
  { fn := fnAB
    store := [("a", 0)]
    entries := [newEntry "a"]
    workerRunning := false
    reqClosed := true
    stopClosed := true
    gets := [{ key := "a", pc := .awaitResp }]
    calls := [{ eid := 0, key := "a", target := 0, pc := .run }]
    dels := []
    fetchLog := []
    panicked := false }

theorem cStop_reach : CReach (NewCache fnAB ["a"]) cStop := by
  refine CReach_head (CStep.serveMiss _ 0 _ rfl rfl rfl rfl rfl rfl) ?_
  refine CReach_head (CStep.stopTrigger _ rfl rfl) ?_
  refine CReach_head (CStep.workerExit _ rfl rfl rfl) ?_
  exact CReach_refl _

/-- Confinement state in which the worker exited before serving the
one pending Get, whose send on the closed reqStream is now doomed. -/
def cShut : CState :=
  { fn := fnAB
    store := []
    entries := []
    workerRunning := false
    reqClosed := true
    stopClosed := true
    gets := [{ key := "a", pc := .sendReq }]
    calls := []
    dels := []
    fetchLog := []
    panicked := false }

theorem cShut_reach : CReach (NewCache fnAB ["a"]) cShut := by
  refine CReach_head (CStep.stopTrigger _ rfl rfl) ?_
  refine CReach_head (CStep.workerExit _ rfl rfl rfl) ?_
  exact CReach_refl _

/-- Confinement state after a single stop trigger. -/
def cTrig1 : CState := { NewCache fnAB ["a"] with stopClosed := true }

/-- Confinement state after a second stop trigger: panicked. -/
def cTrig2 : CState := { cTrig1 with panicked := true }

theorem cTrig1_reach : CReach (NewCache fnAB ["a"]) cTrig1 := by
  refine CReach_head (CStep.stopTrigger _ rfl rfl) ?_
  exact CReach_refl _

theorem fetchWeight_le_one (st : List (String × Nat)) (es : List entry)
    (k : String) : fetchWeight st es k ≤ 1 := by
  rcases h : lookupStore st k with _ | eid
  · rw [fetchWeight_none h]
    exact Nat.zero_le 1
  · rcases he : es[eid]? with _ | e
    · simp [fetchWeight, h, he]
    · rw [fetchWeight_some h he]
      split <;> simp

/-- Claim C1: for every key k, the fetch function is invoked at most
once for k over the cache's lifetime, and exactly once after at least
one Get(k) call has returned, under both the confinement strategy and
the mutex strategy (for any fetcher and any population of concurrent
Get tasks). -/
theorem claim_C1_dedup :
    (∀ (f : Func) (keys : List String) (s : MState) (k : String),
      MReach (NewMutexCache f keys) s →
      countKey s.fetchLog k ≤ 1 ∧
      ((∃ (t : Nat) (τ : MTask) (r : response), s.tasks[t]? = some τ ∧ τ.key = k ∧ τ.pc = MutexPc.done r) →
        countKey s.fetchLog k = 1)) ∧
    (∀ (f : Func) (keys : List String) (s : CState) (k : String),
      CReach (NewCache f keys) s →
      countKey s.fetchLog k ≤ 1 ∧
      ((∃ (t : Nat) (τ : GetTask) (r : response), s.gets[t]? = some τ ∧ τ.key = k ∧ τ.pc = GetPc.done r) →
        countKey s.fetchLog k = 1)) := by
  constructor
  · intro f keys s k h
    have hi := MReach_MInv h
    constructor
    · rw [hi.logCount k]
      exact fetchWeight_le_one _ _ _
    · rintro ⟨t, τ, r, ht, hkey, hpc⟩
      obtain ⟨eid, e, hlk, he, hrd, _⟩ := hi.doneFact t τ r ht hpc
      rw [hi.logCount k, ← hkey, fetchWeight_some hlk he,
        hi.readyWritten eid e he hrd]
      rfl
  · intro f keys s k h
    have hi := CReach_CInv h
    constructor
    · rw [hi.logCount k]
      exact fetchWeight_le_one _ _ _
    · rintro ⟨t, τ, r, ht, hkey, hpc⟩
      obtain ⟨eid, e, hlk, he, hrd, _⟩ := hi.doneFact t τ r ht hpc
      rw [hi.logCount k, ← hkey, fetchWeight_some hlk he,
        hi.readyWritten eid e he hrd]
      rfl

theorem claim_C1_dedup_witness :
    countKey mFin2.fetchLog "a" = 1 ∧ countKey cFin2.fetchLog "a" = 1 := by
  constructor
  · exact (claim_C1_dedup.1 fnAB ["a", "a"] mFin2 "a" mFin2_reach).2
      ⟨0, _, respA, rfl, rfl, rfl⟩
  · exact (claim_C1_dedup.2 fnAB ["a", "a"] cFin2 "a" cFin2_reach).2
      ⟨0, _, respA, rfl, rfl, rfl⟩

/-- Claim C2: for every key, any two Get calls on that key that have
returned received the identical value/error pair (the single outcome
recorded in that key's entry), under both strategies. -/
theorem claim_C2_consistency :
    (∀ (f : Func) (keys : List String) (s : MState),
      MReach (NewMutexCache f keys) s →
      ∀ (t1 t2 : Nat) (τ1 τ2 : MTask) (r1 r2 : response),
        s.tasks[t1]? = some τ1 → s.tasks[t2]? = some τ2 → τ1.key = τ2.key →
        τ1.pc = MutexPc.done r1 → τ2.pc = MutexPc.done r2 → r1 = r2) ∧
    (∀ (f : Func) (keys : List String) (s : CState),
      CReach (NewCache f keys) s →
      ∀ (t1 t2 : Nat) (τ1 τ2 : GetTask) (r1 r2 : response),
        s.gets[t1]? = some τ1 → s.gets[t2]? = some τ2 → τ1.key = τ2.key →
        τ1.pc = GetPc.done r1 → τ2.pc = GetPc.done r2 → r1 = r2) := by
  constructor
  · intro f keys s h t1 t2 τ1 τ2 r1 r2 h1 h2 hkey hp1 hp2
    have hi := MReach_MInv h
    obtain ⟨eid1, e1, hlk1, he1, _, hres1⟩ := hi.doneFact t1 τ1 r1 h1 hp1
    obtain ⟨eid2, e2, hlk2, he2, _, hres2⟩ := hi.doneFact t2 τ2 r2 h2 hp2
    rw [hkey] at hlk1
    have heid : eid1 = eid2 := Option.some.inj (hlk1.symm.trans hlk2)
    subst heid
    rw [he1] at he2
    cases Option.some.inj he2
    rw [hres1, hres2]
  · intro f keys s h t1 t2 τ1 τ2 r1 r2 h1 h2 hkey hp1 hp2
    have hi := CReach_CInv h
    obtain ⟨eid1, e1, hlk1, he1, _, hres1⟩ := hi.doneFact t1 τ1 r1 h1 hp1
    obtain ⟨eid2, e2, hlk2, he2, _, hres2⟩ := hi.doneFact t2 τ2 r2 h2 hp2
    rw [hkey] at hlk1
    have heid : eid1 = eid2 := Option.some.inj (hlk1.symm.trans hlk2)
    subst heid
    rw [he1] at he2
    cases Option.some.inj he2
    rw [hres1, hres2]

theorem claim_C2_consistency_witness :
    mFin2.tasks[0]? = some { key := "a", pc := .done respA } ∧
    mFin2.tasks[1]? = some { key := "a", pc := .done respA } ∧
    cFin2.gets[0]? = some { key := "a", pc := .done respA } ∧
    cFin2.gets[1]? = some { key := "a", pc := .done respA } ∧
    respA = respA ∧ respA = respA :=
  ⟨rfl, rfl, rfl, rfl,
    claim_C2_consistency.1 fnAB ["a", "a"] mFin2 mFin2_reach 0 1 _ _
      respA respA rfl rfl rfl rfl rfl,
    claim_C2_consistency.2 fnAB ["a", "a"] cFin2 cFin2_reach 0 1 _ _
      respA respA rfl rfl rfl rfl rfl⟩

/-- Claim C4: failed outcomes are memoized exactly like successes:
every Get(k) call that has returned received exactly the fetcher's
outcome for k, value and error alike (so an error is returned to every
already-waiting and subsequent caller, never swallowed), and the
fetcher was invoked exactly once for k, under both strategies. -/
theorem claim_C4_errorMemo :
    (∀ (f : Func) (keys : List String) (s : MState) (k : String)
      (t : Nat) (τ : MTask) (r : response),
      MReach (NewMutexCache f keys) s → s.tasks[t]? = some τ → τ.key = k →
      τ.pc = MutexPc.done r →
      r.err = (f k).2 ∧ r.value = (f k).1 ∧ countKey s.fetchLog k = 1) ∧
    (∀ (f : Func) (keys : List String) (s : CState) (k : String)
      (t : Nat) (τ : GetTask) (r : response),
      CReach (NewCache f keys) s → s.gets[t]? = some τ → τ.key = k →
      τ.pc = GetPc.done r →
      r.err = (f k).2 ∧ r.value = (f k).1 ∧ countKey s.fetchLog k = 1) := by
  constructor
  · intro f keys s k t τ r h ht hkey hpc
    have hi := MReach_MInv h
    have hfn : s.fn = f := MReach_fn h
    obtain ⟨eid, e, hlk, he, hrd, hres⟩ := hi.doneFact t τ r ht hpc
    have hw := hi.readyWritten eid e he hrd
    obtain ⟨hv, he2⟩ := hi.writtenVal eid e he hw
    have hurl : e.res.url = τ.key := by
      obtain ⟨e₁, he₁, hurl₁⟩ := hi.storeWF τ.key eid hlk
      rw [he] at he₁
      cases Option.some.inj he₁
      exact hurl₁
    refine ⟨?_, ?_, ?_⟩
    · rw [hres, he2, hurl, hfn, hkey]
    · rw [hres, hv, hurl, hfn, hkey]
    · rw [hi.logCount k, ← hkey, fetchWeight_some hlk he, hw]
      rfl
  · intro f keys s k t τ r h ht hkey hpc
    have hi := CReach_CInv h
    have hfn : s.fn = f := CReach_fn h
    obtain ⟨eid, e, hlk, he, hrd, hres⟩ := hi.doneFact t τ r ht hpc
    have hw := hi.readyWritten eid e he hrd
    obtain ⟨hv, he2⟩ := hi.writtenVal eid e he hw
    have hurl : e.res.url = τ.key := by
      obtain ⟨e₁, he₁, hurl₁⟩ := hi.storeWF τ.key eid hlk
      rw [he] at he₁
      cases Option.some.inj he₁
      exact hurl₁
    refine ⟨?_, ?_, ?_⟩
    · rw [hres, he2, hurl, hfn, hkey]
    · rw [hres, hv, hurl, hfn, hkey]
    · rw [hi.logCount k, ← hkey, fetchWeight_some hlk he, hw]
      rfl

theorem claim_C4_errorMemo_witness :
    mFinBad.tasks[1]? = some { key := "bad", pc := .done respBad } ∧
    cFinBad.gets[1]? = some { key := "bad", pc := .done respBad } ∧
    (respBad.err = (fnBad "bad").2 ∧ respBad.value = (fnBad "bad").1 ∧
      countKey mFinBad.fetchLog "bad" = 1) ∧
    (respBad.err = (fnBad "bad").2 ∧ respBad.value = (fnBad "bad").1 ∧
      countKey cFinBad.fetchLog "bad" = 1) :=
  ⟨rfl, rfl,
    claim_C4_errorMemo.1 fnBad ["bad", "bad"] mFinBad "bad" 1 _ respBad
      mFinBad_reach rfl rfl rfl,
    claim_C4_errorMemo.2 fnBad ["bad", "bad"] cFinBad "bad" 1 _ respBad
      cFinBad_reach rfl rfl rfl⟩

/-- Claim C3: with the fetcher mapping a to A and b to B, the
sequential call sequence Get a, Get b, Get a returns (A, nil),
(B, nil), (A, nil) respectively, and the fetch-call count for a is
still 1 after the third call: the second Get a is served from the
memoized entry without re-invoking the fetcher.  Shown for the mutex
strategy and for the confinement strategy, each by the run in which
every Get completes before the next starts. -/
theorem claim_C3_scenario :
    MReach (NewMutexCache fnAB ["a", "b", "a"]) mFin3 ∧
    mFin3.tasks[0]? = some { key := "a", pc := .done respA } ∧
    mFin3.tasks[1]? = some { key := "b", pc := .done respB } ∧
    mFin3.tasks[2]? = some { key := "a", pc := .done respA } ∧
    respA.value = some "A" ∧ respA.err = none ∧
    respB.value = some "B" ∧ respB.err = none ∧
    countKey mFin3.fetchLog "a" = 1 ∧
    CReach (NewCache fnAB ["a", "b", "a"]) cFin3 ∧
    cFin3.gets[0]? = some { key := "a", pc := .done respA } ∧
    cFin3.gets[1]? = some { key := "b", pc := .done respB } ∧
    cFin3.gets[2]? = some { key := "a", pc := .done respA } ∧
    countKey cFin3.fetchLog "a" = 1 := by
  refine ⟨mFin3_reach, rfl, rfl, rfl, rfl, rfl, rfl, rfl, ?_,
    cFin3_reach, rfl, rfl, rfl, ?_⟩ <;> decide

theorem holdsLockPc_shape {p : MutexPc} (h : holdsLockPc p = true) :
    p = .locked ∨ (∃ eid, p = .missUnlock eid) ∨
      (∃ eid, p = .hitUnlock eid) := by
  cases p with
  | locked => exact Or.inl rfl
  | missUnlock eid => exact Or.inr (Or.inl ⟨eid, rfl⟩)
  | hitUnlock eid => exact Or.inr (Or.inr ⟨eid, rfl⟩)
  | atLock => simp [holdsLockPc] at h
  | fetching eid => simp [holdsLockPc] at h
  | closing eid => simp [holdsLockPc] at h
  | waiting eid => simp [holdsLockPc] at h
  | done r => simp [holdsLockPc] at h

/-- Claim C5: the Store is insertion-only with at most one entry per
key: in every reachable state of either strategy the store keys are
pairwise distinct, an existing key-to-entry binding survives every
further reachable state unchanged (no deletion, no replacement), and
the entry for a key has a unique creating task (entry creation and
insertion being a single atomic step of the embedding, no two tasks
can both create the first entry for the same key). -/
theorem claim_C5_storeInsertionOnly :
    (∀ (f : Func) (keys : List String) (s : MState),
      MReach (NewMutexCache f keys) s →
      (s.store.map Prod.fst).Nodup ∧
      (∀ (s' : MState) (k : String) (eid : Nat), MReach s s' →
        lookupStore s.store k = some eid → lookupStore s'.store k = some eid) ∧
      (∀ (t1 t2 : Nat) (τ1 τ2 : MTask) (eid : Nat), s.tasks[t1]? = some τ1 →
        s.tasks[t2]? = some τ2 → mCreator τ1.pc eid → mCreator τ2.pc eid →
        t1 = t2)) ∧
    (∀ (f : Func) (keys : List String) (s : CState),
      CReach (NewCache f keys) s →
      (s.store.map Prod.fst).Nodup ∧
      (∀ (s' : CState) (k : String) (eid : Nat), CReach s s' →
        lookupStore s.store k = some eid → lookupStore s'.store k = some eid) ∧
      (∀ (i j : Nat) (c c' : CallTask), s.calls[i]? = some c →
        s.calls[j]? = some c' → c.eid = c'.eid → i = j)) := by
  constructor
  · intro f keys s h
    have hi := MReach_MInv h
    exact ⟨hi.storeKeys,
      fun s' k eid h' hl => MReach_store_mono h' hl, hi.creatorUnique⟩
  · intro f keys s h
    have hi := CReach_CInv h
    exact ⟨hi.storeKeys,
      fun s' k eid h' hl => CReach_store_mono h' hl, hi.callUnique⟩

theorem claim_C5_storeInsertionOnly_witness :
    (mFin2.store.map Prod.fst).Nodup ∧ (cFin2.store.map Prod.fst).Nodup :=
  ⟨(claim_C5_storeInsertionOnly.1 fnAB ["a", "a"] mFin2 mFin2_reach).1,
    (claim_C5_storeInsertionOnly.2 fnAB ["a", "a"] cFin2 cFin2_reach).1⟩

/-- Claim C6: mutex-strategy lock discipline.  Whoever holds the lock
is at the lookup or about to unlock on one of the two branches; the
lock is never held at the fetch, at the close or at the wait; a task
about to unlock on the miss branch has already created and inserted
its entry (still holding the lock) with the fetch not yet performed;
a task about to unlock on the hit branch found its entry while
holding the lock. -/
theorem claim_C6_lockDiscipline :
    ∀ (f : Func) (keys : List String) (s : MState),
      MReach (NewMutexCache f keys) s →
      (∀ (t : Nat), s.lock = some t → ∃ τ, s.tasks[t]? = some τ ∧
        (τ.pc = .locked ∨ (∃ eid, τ.pc = .missUnlock eid) ∨
          (∃ eid, τ.pc = .hitUnlock eid))) ∧
      (∀ (t : Nat) (τ : MTask) (eid : Nat), s.tasks[t]? = some τ →
        (τ.pc = .fetching eid ∨ τ.pc = .closing eid ∨ τ.pc = .waiting eid) →
        s.lock ≠ some t) ∧
      (∀ (t : Nat) (τ : MTask) (eid : Nat), s.tasks[t]? = some τ →
        τ.pc = .missUnlock eid →
        s.lock = some t ∧ lookupStore s.store τ.key = some eid ∧
        ∃ e, s.entries[eid]? = some e ∧ e.written = false ∧ e.ready = false) ∧
      (∀ (t : Nat) (τ : MTask) (eid : Nat), s.tasks[t]? = some τ →
        τ.pc = .hitUnlock eid →
        s.lock = some t ∧ lookupStore s.store τ.key = some eid) := by
  intro f keys s h
  have hi := MReach_MInv h
  refine ⟨?_, ?_, ?_, ?_⟩
  · intro t hl
    obtain ⟨τ, ht, hh⟩ := hi.lockHolder t hl
    exact ⟨τ, ht, holdsLockPc_shape hh⟩
  · intro t τ eid ht hbad hl
    obtain ⟨τ₂, ht₂, hh₂⟩ := hi.lockHolder t hl
    rw [ht] at ht₂
    cases Option.some.inj ht₂
    rcases hbad with hq | hq | hq <;> rw [hq] at hh₂ <;>
      simp [holdsLockPc] at hh₂
  · intro t τ eid ht hpc
    refine ⟨hi.lockedImp t τ ht (by rw [hpc]; rfl),
      hi.taskRef t τ eid ht (Or.inl hpc), hi.stageA t τ eid ht (Or.inl hpc)⟩
  · intro t τ eid ht hpc
    exact ⟨hi.lockedImp t τ ht (by rw [hpc]; rfl),
      hi.taskRef t τ eid ht (Or.inr (Or.inl hpc))⟩

theorem claim_C6_lockDiscipline_witness :
    mMid2.tasks[0]? = some { key := "a", pc := .missUnlock 0 } ∧
    (mMid2.lock = some 0 ∧ lookupStore mMid2.store "a" = some 0 ∧
      ∃ e, mMid2.entries[0]? = some e ∧ e.written = false ∧ e.ready = false) :=
  ⟨rfl, (claim_C6_lockDiscipline fnAB ["a", "a"] mMid2 mMid2_reach).2.2.1
    0 _ 0 rfl rfl⟩

theorem MStep_entry_frozen {s s' : MState} (hi : MInv s) (h : MStep s s')
    {eid : Nat} {e e' : entry} (he : s.entries[eid]? = some e)
    (he' : s'.entries[eid]? = some e') :
    (e.written = true → e'.written = true ∧ e'.res = e.res) ∧
    (e.ready = true → e'.ready = true) := by
  cases h
  case lookupMiss t τ hp ht hpc hl hm =>
    rw [getElem?_append_lt (getElem?_lt he)] at he'
    rw [he] at he'
    cases Option.some.inj he'
    exact ⟨fun hw => ⟨hw, rfl⟩, fun hr => hr⟩
  case fetch t τ eid2 e2 hp ht hpc he2 =>
    by_cases heq : eid = eid2
    · subst heq
      rw [he] at he2
      cases Option.some.inj he2
      obtain ⟨e₀, he₀, hw₀, hr₀⟩ := hi.stageA t τ eid ht (Or.inr hpc)
      rw [he] at he₀
      cases Option.some.inj he₀
      constructor
      · intro hw
        rw [hw₀] at hw
        cases hw
      · intro hr
        rw [hr₀] at hr
        cases hr
    · rw [getElem?_set_ne fun hh => heq hh.symm] at he'
      rw [he] at he'
      cases Option.some.inj he'
      exact ⟨fun hw => ⟨hw, rfl⟩, fun hr => hr⟩
  case closeRet t τ eid2 e2 hp ht hpc he2 hr2 =>
    by_cases heq : eid = eid2
    · subst heq
      rw [he] at he2
      cases Option.some.inj he2
      rw [getElem?_set_self (getElem?_lt he)] at he'
      cases Option.some.inj he'
      exact ⟨fun hw => ⟨hw, rfl⟩, fun _ => rfl⟩
    · rw [getElem?_set_ne fun hh => heq hh.symm] at he'
      rw [he] at he'
      cases Option.some.inj he'
      exact ⟨fun hw => ⟨hw, rfl⟩, fun hr => hr⟩
  all_goals {
    have hsame : s.entries[eid]? = some e' := he'
    rw [he] at hsame
    cases Option.some.inj hsame
    exact ⟨fun hw => ⟨hw, rfl⟩, fun hr => hr⟩ }

theorem CStep_entry_frozen {s s' : CState} (hi : CInv s) (h : CStep s s')
    {eid : Nat} {e e' : entry} (he : s.entries[eid]? = some e)
    (he' : s'.entries[eid]? = some e') :
    (e.written = true → e'.written = true ∧ e'.res = e.res) ∧
    (e.ready = true → e'.ready = true) := by
  cases h
  case serveMiss t τ hp hw hc ht hpc hm =>
    rw [getElem?_append_lt (getElem?_lt he)] at he'
    rw [he] at he'
    cases Option.some.inj he'
    exact ⟨fun hw => ⟨hw, rfl⟩, fun hr => hr⟩
  case callRun i c e2 hp hic hpc he2 =>
    by_cases heq : eid = c.eid
    · subst heq
      rw [he] at he2
      cases Option.some.inj he2
      obtain ⟨hw₀, hr₀⟩ := hi.callStageRun i c e hic he hpc
      constructor
      · intro hw
        rw [hw₀] at hw
        cases hw
      · intro hr
        rw [hr₀] at hr
        cases hr
    · rw [getElem?_set_ne fun hh => heq hh.symm] at he'
      rw [he] at he'
      cases Option.some.inj he'
      exact ⟨fun hw => ⟨hw, rfl⟩, fun hr => hr⟩
  case callClose i c e2 hp hic hpc he2 hr2 =>
    by_cases heq : eid = c.eid
    · subst heq
      rw [he] at he2
      cases Option.some.inj he2
      rw [getElem?_set_self (getElem?_lt he)] at he'
      cases Option.some.inj he'
      exact ⟨fun hw => ⟨hw, rfl⟩, fun _ => rfl⟩
    · rw [getElem?_set_ne fun hh => heq hh.symm] at he'
      rw [he] at he'
      cases Option.some.inj he'
      exact ⟨fun hw => ⟨hw, rfl⟩, fun hr => hr⟩
  all_goals {
    have hsame : s.entries[eid]? = some e' := he'
    rw [he] at hsame
    cases Option.some.inj hsame
    exact ⟨fun hw => ⟨hw, rfl⟩, fun hr => hr⟩ }

/-- Claim C7: every entry's readiness signal fires exactly once and
irreversibly.  Along any step of either strategy, a written result
stays written and frozen and a fired signal stays fired; the fetch
only ever executes against an unwritten, unfired entry and the close
only ever executes after the write and against an unfired signal (so
firing twice is impossible: the firing task is the entry's single
creating task, per claim C5's uniqueness); value/error are readable
only behind the fired signal (the entry is written whenever ready);
and every waiter of a fired signal is released: its receive step is
enabled and returns the recorded result. -/
theorem claim_C7_readiness :
    (∀ (f : Func) (keys : List String) (s s' : MState),
      MReach (NewMutexCache f keys) s → MStep s s' →
      ∀ (eid : Nat) (e e' : entry), s.entries[eid]? = some e →
        s'.entries[eid]? = some e' →
        (e.written = true → e'.written = true ∧ e'.res = e.res) ∧
        (e.ready = true → e'.ready = true)) ∧
    (∀ (f : Func) (keys : List String) (s : MState),
      MReach (NewMutexCache f keys) s →
      ∀ (t : Nat) (τ : MTask) (eid : Nat) (e : entry),
        s.tasks[t]? = some τ → s.entries[eid]? = some e →
        (τ.pc = .fetching eid → e.written = false ∧ e.ready = false) ∧
        (τ.pc = .closing eid → e.written = true ∧ e.ready = false) ∧
        (τ.pc = .waiting eid → e.ready = true →
          MStep s
            { s with tasks := s.tasks.set t { τ with pc := .done e.res } })) ∧
    (∀ (f : Func) (keys : List String) (s : MState),
      MReach (NewMutexCache f keys) s →
      ∀ (eid : Nat) (e : entry), s.entries[eid]? = some e → e.ready = true →
        e.written = true) ∧
    (∀ (f : Func) (keys : List String) (s s' : CState),
      CReach (NewCache f keys) s → CStep s s' →
      ∀ (eid : Nat) (e e' : entry), s.entries[eid]? = some e →
        s'.entries[eid]? = some e' →
        (e.written = true → e'.written = true ∧ e'.res = e.res) ∧
        (e.ready = true → e'.ready = true)) ∧
    (∀ (f : Func) (keys : List String) (s : CState),
      CReach (NewCache f keys) s →
      ∀ (i : Nat) (c : CallTask) (e : entry),
        s.calls[i]? = some c → s.entries[c.eid]? = some e →
        (c.pc = .run → e.written = false ∧ e.ready = false) ∧
        (c.pc = .closingCh → e.written = true ∧ e.ready = false)) ∧
    (∀ (f : Func) (keys : List String) (s : CState),
      CReach (NewCache f keys) s → s.panicked = false →
      ∀ (i : Nat) (d : DelTask) (e : entry),
        s.dels[i]? = some d → s.entries[d.eid]? = some e →
        (d.pc = .waitReady → e.ready = true →
          CStep s { s with dels := s.dels.set i { d with pc := .sending } }) ∧
        (d.pc = .sending → ∀ (τ : GetTask), s.gets[d.target]? = some τ →
          τ.pc = .awaitResp →
          CStep s { s with
            gets := s.gets.set d.target { τ with pc := .done e.res },
            dels := s.dels.set i { d with pc := .finished } })) ∧
    (∀ (f : Func) (keys : List String) (s : CState),
      CReach (NewCache f keys) s →
      ∀ (eid : Nat) (e : entry), s.entries[eid]? = some e → e.ready = true →
        e.written = true) := by
  refine ⟨?_, ?_, ?_, ?_, ?_, ?_, ?_⟩
  · intro f keys s s' h hstep eid e e' he he'
    exact MStep_entry_frozen (MReach_MInv h) hstep he he'
  · intro f keys s h t τ eid e ht he
    have hi := MReach_MInv h
    refine ⟨?_, ?_, ?_⟩
    · intro hpc
      obtain ⟨e₀, he₀, hw₀, hr₀⟩ := hi.stageA t τ eid ht (Or.inr hpc)
      rw [he] at he₀
      cases Option.some.inj he₀
      exact ⟨hw₀, hr₀⟩
    · intro hpc
      obtain ⟨e₀, he₀, hw₀, hr₀⟩ := hi.stageB t τ eid ht hpc
      rw [he] at he₀
      cases Option.some.inj he₀
      exact ⟨hw₀, hr₀⟩
    · intro hpc hrd
      exact MStep.waitRet s t τ eid e hi.noPanic ht hpc he hrd
  · intro f keys s h eid e he hrd
    exact (MReach_MInv h).readyWritten eid e he hrd
  · intro f keys s s' h hstep eid e e' he he'
    exact CStep_entry_frozen (CReach_CInv h) hstep he he'
  · intro f keys s h i c e hic he
    have hi := CReach_CInv h
    exact ⟨hi.callStageRun i c e hic he, hi.callStageClose i c e hic he⟩
  · intro f keys s h hp i d e hid he
    refine ⟨?_, ?_⟩
    · intro hpc hrd
      exact CStep.delWait s i d e hp hid hpc he hrd
    · intro hpc τ ht hw
      exact CStep.delSend s i d e τ hp hid hpc he ht hw
  · intro f keys s h eid e he hrd
    exact (CReach_CInv h).readyWritten eid e he hrd

theorem claim_C7_readiness_witness :
    entryA.ready = true ∧ mFin2.entries[0]? = some entryA ∧
    entryA.written = true ∧
    cFin2.entries[0]? = some entryA ∧ entryA.written = true :=
  ⟨rfl, rfl,
    (claim_C7_readiness.2.2.1 fnAB ["a", "a"] mFin2 mFin2_reach 0 entryA
      rfl rfl),
    rfl,
    (claim_C7_readiness.2.2.2.2.2.2 fnAB ["a", "a"] cFin2 cFin2_reach 0
      entryA rfl rfl)⟩

/-- Claim C8: confinement shutdown.  Once the worker has exited (it
does so only after the stop signal fired), no further step restarts
it, touches the store, spawns a fetch or delivery goroutine, or
services a pending Request (a Get still at its send can only stay
there or crash); while fetch goroutines already spawned are not
canceled: their remaining steps, through delivering to their reply
channel, stay enabled. -/
theorem claim_C8_shutdown :
    ∀ (f : Func) (keys : List String) (s : CState),
      CReach (NewCache f keys) s → s.workerRunning = false →
      (∀ (s' : CState), CStep s s' →
        s'.workerRunning = false ∧ s'.store = s.store ∧
        s'.calls.length = s.calls.length ∧ s'.dels.length = s.dels.length ∧
        (∀ (t : Nat) (τ : GetTask), s.gets[t]? = some τ → τ.pc = .sendReq →
          ∃ τ', s'.gets[t]? = some τ' ∧
            (τ'.pc = .sendReq ∨ τ'.pc = .crashed))) ∧
      (s.panicked = false →
        (∀ (i : Nat) (c : CallTask), s.calls[i]? = some c → c.pc = .run →
          ∃ e s', s.entries[c.eid]? = some e ∧ CStep s s' ∧
            s'.calls[i]? = some { c with pc := .closingCh }) ∧
        (∀ (i : Nat) (c : CallTask), s.calls[i]? = some c →
          c.pc = .closingCh →
          ∃ s', CStep s s' ∧
            s'.calls[i]? = some { c with pc := .sending }) ∧
        (∀ (i : Nat) (c : CallTask) (τ : GetTask), s.calls[i]? = some c →
          c.pc = .sending → s.gets[c.target]? = some τ → τ.pc = .awaitResp →
          ∃ e s', s.entries[c.eid]? = some e ∧ CStep s s' ∧
            s'.gets[c.target]? = some { τ with pc := .done e.res })) := by
  intro f keys s h hw
  have hi := CReach_CInv h
  constructor
  · intro s' hstep
    cases hstep
    case serveMiss t τ hp hw2 hc ht hpc hm =>
      rw [hw] at hw2
      cases hw2
    case serveHit t τ eid hp hw2 hc ht hpc hh =>
      rw [hw] at hw2
      cases hw2
    case workerExit hp hw2 hs =>
      rw [hw] at hw2
      cases hw2
    case sendReqClosed t2 τ2 hp hc ht2 hpc2 =>
      refine ⟨hw, rfl, rfl, rfl, ?_⟩
      intro t τ ht hpc
      by_cases htt : t = t2
      · subst htt
        rw [ht] at ht2
        cases Option.some.inj ht2
        exact ⟨{ τ2 with pc := .crashed },
          getElem?_set_self (getElem?_lt ht), Or.inr rfl⟩
      · exact ⟨τ, by rw [getElem?_set_ne fun hh => htt hh.symm]; exact ht,
          Or.inl hpc⟩
    case callRun i c e hp hic hpc he =>
      refine ⟨hw, rfl, by simp, rfl, ?_⟩
      intro t τ ht hpc2
      exact ⟨τ, ht, Or.inl hpc2⟩
    case callClose i c e hp hic hpc he hr =>
      refine ⟨hw, rfl, by simp, rfl, ?_⟩
      intro t τ ht hpc2
      exact ⟨τ, ht, Or.inl hpc2⟩
    case callCloseAgain i c e hp hic hpc he hr =>
      refine ⟨hw, rfl, rfl, rfl, ?_⟩
      intro t τ ht hpc2
      exact ⟨τ, ht, Or.inl hpc2⟩
    case callSend i c e τ2 hp hic hpc he ht2 hw2 =>
      refine ⟨hw, rfl, by simp, rfl, ?_⟩
      intro t τ ht hpc2
      by_cases htt : t = c.target
      · subst htt
        rw [ht] at ht2
        cases Option.some.inj ht2
        rw [hpc2] at hw2
        cases hw2
      · exact ⟨τ, by rw [getElem?_set_ne fun hh => htt hh.symm]; exact ht,
          Or.inl hpc2⟩
    case delWait i d e hp hid hpc he hr =>
      refine ⟨hw, rfl, rfl, by simp, ?_⟩
      intro t τ ht hpc2
      exact ⟨τ, ht, Or.inl hpc2⟩
    case delSend i d e τ2 hp hid hpc he ht2 hw2 =>
      refine ⟨hw, rfl, rfl, by simp, ?_⟩
      intro t τ ht hpc2
      by_cases htt : t = d.target
      · subst htt
        rw [ht] at ht2
        cases Option.some.inj ht2
        rw [hpc2] at hw2
        cases hw2
      · exact ⟨τ, by rw [getElem?_set_ne fun hh => htt hh.symm]; exact ht,
          Or.inl hpc2⟩
    case stopTrigger hp hs =>
      refine ⟨hw, rfl, rfl, rfl, ?_⟩
      intro t τ ht hpc2
      exact ⟨τ, ht, Or.inl hpc2⟩
    case stopTriggerAgain hp hs =>
      refine ⟨hw, rfl, rfl, rfl, ?_⟩
      intro t τ ht hpc2
      exact ⟨τ, ht, Or.inl hpc2⟩
  · intro hp
    refine ⟨?_, ?_, ?_⟩
    · intro i c hic hpc
      obtain ⟨hlk, _⟩ := hi.callsWF i c hic
      obtain ⟨e, he, _⟩ := hi.storeWF c.key c.eid hlk
      exact ⟨e, _, he, CStep.callRun s i c e hp hic hpc he,
        getElem?_set_self (getElem?_lt hic)⟩
    · intro i c hic hpc
      obtain ⟨hlk, _⟩ := hi.callsWF i c hic
      obtain ⟨e, he, _⟩ := hi.storeWF c.key c.eid hlk
      have hr := (hi.callStageClose i c e hic he hpc).2
      exact ⟨_, CStep.callClose s i c e hp hic hpc he hr,
        getElem?_set_self (getElem?_lt hic)⟩
    · intro i c τ hic hpc ht hwτ
      obtain ⟨hlk, _⟩ := hi.callsWF i c hic
      obtain ⟨e, he, _⟩ := hi.storeWF c.key c.eid hlk
      exact ⟨e, _, he, CStep.callSend s i c e τ hp hic hpc he ht hwτ,
        getElem?_set_self (getElem?_lt ht)⟩

theorem claim_C8_shutdown_witness :
    cStop.workerRunning = false ∧
    cStop.calls[0]? = some { eid := 0, key := "a", target := 0, pc := .run } ∧
    (∃ e s', cStop.entries[0]? = some e ∧ CStep cStop s' ∧
      s'.calls[0]? = some { eid := 0, key := "a", target := 0,
                            pc := .closingCh }) :=
  ⟨rfl, rfl,
    ((claim_C8_shutdown fnAB ["a"] cStop cStop_reach rfl).2 rfl).1 0
      { eid := 0, key := "a", target := 0, pc := .run } rfl rfl⟩

/-- Claim C9 counterexample: the stop trigger is close(stop), and in
the reachable state cTrig1 in which the trigger has already been
invoked once (the signal fired, nothing panicked), invoking the
trigger a second time is the step to cTrig2, which is panicked: Go
panics on close of an already-closed channel, so the second trigger
is not safe and not effect-free. -/
theorem claim_C9_counterexample :
    CReach (NewCache fnAB ["a"]) cTrig1 ∧ cTrig1.panicked = false ∧
    cTrig1.stopClosed = true ∧ CStep cTrig1 cTrig2 ∧
    cTrig2.panicked = true :=
  ⟨cTrig1_reach, rfl, rfl, CStep.stopTriggerAgain cTrig1 rfl rfl, rfl⟩

/-- Claim C9 as amended: invoking the stop trigger when the signal has
not fired yet fires it; invoking it again once it has fired panics
(close of a closed channel) instead of being a no-op; the fired
signal itself is permanent, so observing it is idempotent. -/
theorem claim_C9_amended :
    ∀ (f : Func) (keys : List String) (s : CState),
      CReach (NewCache f keys) s → s.panicked = false →
      (s.stopClosed = false → CStep s { s with stopClosed := true }) ∧
      (s.stopClosed = true → CStep s { s with panicked := true }) ∧
      (∀ (s' : CState), CStep s s' → s.stopClosed = true →
        s'.stopClosed = true) := by
  intro f keys s h hp
  refine ⟨fun hs => CStep.stopTrigger s hp hs,
    fun hs => CStep.stopTriggerAgain s hp hs, ?_⟩
  intro s' hstep hs
  cases hstep <;> first | exact hs | rfl

theorem claim_C9_amended_witness :
    (NewCache fnAB ["a"]).stopClosed = false ∧ cTrig1.stopClosed = true ∧
    CStep (NewCache fnAB ["a"]) { NewCache fnAB ["a"] with stopClosed := true } ∧
    CStep cTrig1 { cTrig1 with panicked := true } :=
  ⟨rfl, rfl,
    (claim_C9_amended fnAB ["a"] (NewCache fnAB ["a"]) (CReach_refl _) rfl).1 rfl,
    (claim_C9_amended fnAB ["a"] cTrig1 cTrig1_reach rfl).2.1 rfl⟩

/-- Claim C10: in the confinement strategy, in any reachable state in
which the worker has closed the request channel, the worker has
exited, and a Get still at its request send panics at that send (the
panic step is the only step that moves it: no step can ever serve
it), rather than blocking forever or returning a shutdown error; and
every Get that has returned carries exactly the fetcher's error for
its key, never a shutdown error value. -/
theorem claim_C10_sendPanic :
    ∀ (f : Func) (keys : List String) (s : CState) (t : Nat) (τ : GetTask),
      CReach (NewCache f keys) s → s.panicked = false → s.reqClosed = true →
      s.gets[t]? = some τ → τ.pc = .sendReq →
      s.workerRunning = false ∧
      CStep s { s with gets := s.gets.set t { τ with pc := .crashed },
                       panicked := true } ∧
      (∀ (s' : CState), CStep s s' → ∃ τ', s'.gets[t]? = some τ' ∧
        (τ'.pc = .sendReq ∨ τ'.pc = .crashed)) ∧
      (∀ (t' : Nat) (τ' : GetTask) (r : response), s.gets[t']? = some τ' →
        τ'.pc = .done r → r.err = (f τ'.key).2) := by
  intro f keys s t τ h hp hc ht hpc
  have hi := CReach_CInv h
  have hwf : s.workerRunning = false := by
    have h2 := hi.workerReq
    rw [hc] at h2
    cases hq : s.workerRunning
    · rfl
    · rw [hq] at h2
      exact absurd h2 (by decide)
  refine ⟨hwf, CStep.sendReqClosed s t τ hp hc ht hpc, ?_, ?_⟩
  · intro s' hstep
    cases hstep
    case serveMiss t2 τ2 hp2 hw2 hc2 ht2 hpc2 hm =>
      rw [hwf] at hw2
      cases hw2
    case serveHit t2 τ2 eid hp2 hw2 hc2 ht2 hpc2 hh =>
      rw [hwf] at hw2
      cases hw2
    case workerExit hp2 hw2 hs =>
      rw [hwf] at hw2
      cases hw2
    case sendReqClosed t2 τ2 hp2 hc2 ht2 hpc2 =>
      by_cases htt : t = t2
      · subst htt
        rw [ht] at ht2
        cases Option.some.inj ht2
        exact ⟨{ τ with pc := .crashed },
          getElem?_set_self (getElem?_lt ht), Or.inr rfl⟩
      · exact ⟨τ, by rw [getElem?_set_ne fun hh => htt hh.symm]; exact ht,
          Or.inl hpc⟩
    case callRun i c e hp2 hic hpc2 he =>
      exact ⟨τ, ht, Or.inl hpc⟩
    case callClose i c e hp2 hic hpc2 he hr =>
      exact ⟨τ, ht, Or.inl hpc⟩
    case callCloseAgain i c e hp2 hic hpc2 he hr =>
      exact ⟨τ, ht, Or.inl hpc⟩
    case callSend i c e τ2 hp2 hic hpc2 he ht2 hw2 =>
      by_cases htt : t = c.target
      · subst htt
        rw [ht] at ht2
        cases Option.some.inj ht2
        rw [hpc] at hw2
        cases hw2
      · exact ⟨τ, by rw [getElem?_set_ne fun hh => htt hh.symm]; exact ht,
          Or.inl hpc⟩
    case delWait i d e hp2 hid hpc2 he hr =>
      exact ⟨τ, ht, Or.inl hpc⟩
    case delSend i d e τ2 hp2 hid hpc2 he ht2 hw2 =>
      by_cases htt : t = d.target
      · subst htt
        rw [ht] at ht2
        cases Option.some.inj ht2
        rw [hpc] at hw2
        cases hw2
      · exact ⟨τ, by rw [getElem?_set_ne fun hh => htt hh.symm]; exact ht,
          Or.inl hpc⟩
    case stopTrigger hp2 hs =>
      exact ⟨τ, ht, Or.inl hpc⟩
    case stopTriggerAgain hp2 hs =>
      exact ⟨τ, ht, Or.inl hpc⟩
  · intro t' τ' r ht' hd
    have hfn : s.fn = f := CReach_fn h
    obtain ⟨eid, e, hlk, he, hrd, hres⟩ := hi.doneFact t' τ' r ht' hd
    have hw := hi.readyWritten eid e he hrd
    obtain ⟨_, he2⟩ := hi.writtenVal eid e he hw
    have hurl : e.res.url = τ'.key := by
      obtain ⟨e₁, he₁, hurl₁⟩ := hi.storeWF τ'.key eid hlk
      rw [he] at he₁
      cases Option.some.inj he₁
      exact hurl₁
    rw [hres, he2, hurl, hfn]

theorem claim_C10_sendPanic_witness :
    cShut.panicked = false ∧ cShut.reqClosed = true ∧
    cShut.gets[0]? = some { key := "a", pc := .sendReq } ∧
    cShut.workerRunning = false ∧
    CStep cShut { cShut with
      gets := cShut.gets.set 0 { key := "a", pc := GetPc.crashed },
      panicked := true } :=
  ⟨rfl, rfl, rfl,
    (claim_C10_sendPanic fnAB ["a"] cShut 0 _ cShut_reach rfl rfl rfl rfl).1,
    (claim_C10_sendPanic fnAB ["a"] cShut 0 _ cShut_reach rfl rfl rfl rfl).2.1⟩
